import Mathlib

/-!
# GOTA: triangular arbitrage engine

A shallow embedding of the detector (`internal/app/robot/detector.go`), the
executor (`internal/app/robot/executor.go`), the price lookup of
`internal/app/robot/robot.go`, from `internal/app/market` the Bybit
order-book handler, `GetPrecision`, `GetInstrumentsInfo` and the assembly of
query strings and signatures, the handlers of
`internal/app/apiserver/server.go`, and the read limit of
`pkg/websocket/websocket.go`.

Modelling conventions.

* Go `float64` values (prices, fee, threshold, lot, executed quantities) are
  rationals `ℚ`. The arithmetic of the detector and the executor is a
  parameter `F : FloatOps`: `binary64` rounds the result of every operation
  to the nearest value with a 53-bit significand, ties to even, as the code
  does; `exactOps` does not round. NaN, infinities, overflow and the
  subnormal range are not represented.
* A Go `error` is `Option Error`, with `none` for `nil`.
* A run-time panic (index out of range) is `none` in an `Option` result.
* The exchange behind `market.PrivateClient` is an arbitrary state machine:
  a state type `σ` and a `PlaceOrder` step function.
* `strconv.FormatFloat(x, 'f', prec, 64)` is library code; the executor takes
  the formatter as the parameter `fmt`.
* `Executor.Counter` is a Go `int`: `++` and `--` wrap around on 64 bits
  (`wrapInt`). `ExecuteTriangle` is one call run from entry to return; the
  accesses of two calls that overlap on the shared executor are interleaved
  in `Shared`.
* Mutex operations and `PlaceOrder` calls are recorded, in program order, in
  an event trace.
* A Go map is the list of its entries; the order in which a `range` loop
  visits them is a parameter `iter` of the function that contains the loop.
* `strconv.ParseFloat`, the `%v` rendering of a `float64` and HMAC-SHA256
  are library code and are parameters (`parse`, `fmtFloat`, `hmacHex`).
-/

namespace GOTA

/-! ## Data model (`internal/app/market/market.go`) -/

/-- Message of a Go `error` value. -/
abbrev Error := String

/-- The fields shared by `BinanceSymbol` and `BybitSymbol`. -/
structure MarketSymbol where
  BaseAsset : String
  QuoteAsset : String
  BaseSymbol : String
  Symbol : String
  BasePrecision : Int
  PricePrecision : Int
deriving DecidableEq

def MarketSymbol.GetBaseSymbol (s : MarketSymbol) : String := s.BaseSymbol

def MarketSymbol.GetSymbol (s : MarketSymbol) : String := s.Symbol

def MarketSymbol.GetBasePrecision (s : MarketSymbol) : Int := s.BasePrecision

def MarketSymbol.GetPricePrecision (s : MarketSymbol) : Int := s.PricePrecision

structure PriceLevel where
  Price : ℚ
  Quantity : ℚ
deriving DecidableEq

structure OrderBookEvent where
  Symbol : String
  Asks : List PriceLevel
  Bids : List PriceLevel
deriving DecidableEq

/-- The three symbols of `robot.Triangle`. -/
structure Triangle where
  Initial : MarketSymbol
  Middle : MarketSymbol
  Final : MarketSymbol
deriving DecidableEq

/-! ## Machine arithmetic -/

/-- The four `float64` operations the program uses. The detector and the
executor take them as a parameter, so that a statement can be made of every
arithmetic, of exact arithmetic (`exactOps`) or of IEEE 754 binary64
(`binary64`). -/
structure FloatOps where
  add : ℚ → ℚ → ℚ
  sub : ℚ → ℚ → ℚ
  mul : ℚ → ℚ → ℚ
  div : ℚ → ℚ → ℚ

/-- Arithmetic without rounding. -/
def exactOps : FloatOps :=
  ⟨fun x y => x + y, fun x y => x - y, fun x y => x * y, fun x y => x / y⟩

/-- The integer nearest to `y`, a tie going to the even one. -/
def roundHalfEven (y : ℚ) : Int :=
  let f := ⌊y⌋
  if y - f < 1 / 2 then f
  else if 1 / 2 < y - f then f + 1
  else if f % 2 = 0 then f else f + 1

/-- Rounding to the nearest number with a 53-bit significand, ties to even:
the rounding of every `float64` operation. The exponent is not bounded, so
overflow to an infinity and the subnormal range are not represented. -/
def round64 (x : ℚ) : ℚ :=
  if x = 0 then 0
  else
    let e : Int := Int.log 2 |x| - 52
    (roundHalfEven (x / 2 ^ e) : ℚ) * 2 ^ e

/-- IEEE 754 binary64 arithmetic: each operation is the exact one followed by
`round64`. The expressions of the program hold no product followed by a sum,
so a compiler has nothing to fuse. -/
def binary64 : FloatOps :=
  ⟨fun x y => round64 (x + y), fun x y => round64 (x - y), fun x y => round64 (x * y),
    fun x y => round64 (x / y)⟩

/-- The `float64` with significand `m` and exponent `-k`. -/
def dbl (m : Int) (k : Nat) : ℚ := (m : ℚ) / 2 ^ k

/-- The value a Go `int` holds after an operation whose mathematical result
is `x`: two's-complement wrap-around on 64 bits, into the range from
`-2^63 = -9223372036854775808` to `2^63 - 1`. -/
def wrapInt (x : Int) : Int :=
  (x + 9223372036854775808) % 18446744073709551616 - 9223372036854775808

/-! ## Executor (`internal/app/robot/executor.go`) -/

/-- The arguments of one `PlaceOrder(symbol, side, t, quantity)` call. -/
structure Order where
  symbol : String
  side : String
  t : String
  quantity : String
deriving DecidableEq

/-- What a call of `ExecuteTriangle` does to the outside, in program order:
`ex.Lock.Lock()`, `ex.Lock.Unlock()`, and `ex.Client.PlaceOrder(...)` together
with the value of `ex.Counter` at the time of the call and what the client
returned. -/
inductive Event where
  | lock : Event
  | unlock : Event
  | placeOrder (o : Order) (counter : Int) (qty : ℚ) (err : Option Error) : Event
deriving DecidableEq

/-- The `PlaceOrder` method of `market.PrivateClient`, as a step function on
the state `σ` of the exchange: it returns the next state, the executed
quantity and the error. -/
structure PrivateClient (σ : Type) where
  PlaceOrder : σ → String → String → String → String → σ × ℚ × Option Error

/-- The fields of `robot.Executor`: `Client` is the state of the exchange
behind the client, `Fee` the value stored at the `*float64`. The mutex has no
field; its operations appear in the trace. -/
structure Executor (σ : Type) where
  Client : σ
  Counter : Int
  Fee : ℚ

/-- An executor together with the events emitted so far. -/
structure Run (σ : Type) where
  ex : Executor σ
  trace : List Event

/-- The call `ex.Lock.Lock()`. -/
def Run.Lock {σ : Type} (r : Run σ) : Run σ :=
  { r with trace := r.trace ++ [Event.lock] }

/-- The call `ex.Lock.Unlock()`. -/
def Run.Unlock {σ : Type} (r : Run σ) : Run σ :=
  { r with trace := r.trace ++ [Event.unlock] }

/-- The call `ex.Client.PlaceOrder(symbol, side, t, quantity)`. -/
def Run.PlaceOrder {σ : Type} (P : PrivateClient σ) (r : Run σ)
    (symbol side t quantity : String) : Run σ × ℚ × Option Error :=
  let res := P.PlaceOrder r.ex.Client symbol side t quantity
  ({ ex := { r.ex with Client := res.1 },
     trace := r.trace ++
       [Event.placeOrder ⟨symbol, side, t, quantity⟩ r.ex.Counter res.2.1 res.2.2] },
   res.2.1, res.2.2)

/-- The body of `Executor.ExecuteTriangle` between `ex.Counter++` and the
deferred `ex.Counter--`: the `switch sequence` statement. -/
def ExecuteTriangle.body {σ : Type} (P : PrivateClient σ) (fmt : ℚ → Int → String)
    (F : FloatOps)
    (r : Run σ) (fee : ℚ) (triangle : Triangle) (sequence : String) (lot : ℚ) :
    Run σ × Option Error :=
  if sequence = "BBS" then
    let quantity := fmt lot triangle.Initial.GetPricePrecision
    let r := r.Lock
    match r.PlaceOrder P triangle.Initial.GetSymbol "BUY" "open" quantity with
    | (r, _, some err) => (r.Unlock, some err)
    | (r, qty, none) =>
      let r := r.Unlock
      let quantity := fmt qty triangle.Middle.GetPricePrecision
      let rollback0 := quantity
      let r := r.Lock
      match r.PlaceOrder P triangle.Middle.GetSymbol "BUY" "open" quantity with
      | (r, _, some err) =>
        let r := r.Unlock
        let r := (r.PlaceOrder P triangle.Initial.GetSymbol "SELL" "close" rollback0).1
        (r, some err)
      | (r, qty, none) =>
        let r := r.Unlock
        let quantity := fmt qty triangle.Middle.GetBasePrecision
        let rollback1 := quantity
        let r := r.Lock
        match r.PlaceOrder P triangle.Final.GetSymbol "SELL" "close" quantity with
        | (r, _, some err) =>
          let r := r.Unlock
          let r := (r.PlaceOrder P triangle.Middle.GetSymbol "SELL" "close" rollback1).1
          let r := (r.PlaceOrder P triangle.Initial.GetSymbol "SELL" "close" rollback0).1
          (r, some err)
        | (r, _, none) => (r.Unlock, none)
  else if sequence = "SSB" then
    let quantity := fmt lot triangle.Initial.GetPricePrecision
    let r := r.Lock
    match r.PlaceOrder P triangle.Initial.GetSymbol "SELL" "open" quantity with
    | (r, _, some err) => (r.Unlock, some err)
    | (r, qty, none) =>
      let r := r.Unlock
      let qty := F.mul qty (F.add 1 (F.div fee 100))
      let quantity := fmt qty triangle.Middle.GetPricePrecision
      let rollback0 := quantity
      let r := r.Lock
      match r.PlaceOrder P triangle.Middle.GetSymbol "SELL" "open" quantity with
      | (r, _, some err) =>
        let r := r.Unlock
        let r := (r.PlaceOrder P triangle.Initial.GetSymbol "BUY" "close" rollback0).1
        (r, some err)
      | (r, qty, none) =>
        let r := r.Unlock
        let qty := F.mul qty (F.add 1 (F.div fee 100))
        let quantity := fmt qty triangle.Middle.GetBasePrecision
        let rollback1 := quantity
        let r := r.Lock
        match r.PlaceOrder P triangle.Final.GetSymbol "BUY" "close" quantity with
        | (r, _, some err) =>
          let r := r.Unlock
          let r := (r.PlaceOrder P triangle.Middle.GetSymbol "BUY" "close" rollback1).1
          let r := (r.PlaceOrder P triangle.Initial.GetSymbol "BUY" "close" rollback0).1
          (r, some err)
        | (r, _, none) => (r.Unlock, none)
  else (r, none)

/-- The method `Executor.ExecuteTriangle(triangle, sequence, lot)`, started
with an empty trace and run from entry to return with no other call in
between: `ex.Counter++`, `fee := *(ex.Fee)`, the `switch`, and the deferred
`ex.Counter--` on every return. -/
def ExecuteTriangle {σ : Type} (P : PrivateClient σ) (fmt : ℚ → Int → String)
    (F : FloatOps) (ex : Executor σ) (triangle : Triangle) (sequence : String) (lot : ℚ) :
    Run σ × Option Error :=
  let ex := { ex with Counter := wrapInt (ex.Counter + 1) }
  let fee := ex.Fee
  let res := ExecuteTriangle.body P fmt F { ex := ex, trace := [] } fee triangle sequence lot
  ({ res.1 with ex := { res.1.ex with Counter := wrapInt (res.1.ex.Counter - 1) } }, res.2)

/-- The accesses one call of `ExecuteTriangle` makes to `ex.Counter`, in
program order. The code takes no lock around `ex.Counter++` and the deferred
`ex.Counter--`, so each is a read followed by a write; `placeOrder` is a
`PlaceOrder` call, made while the counter has some value. -/
inductive Access where
  | read : Access
  | writeInc : Access
  | placeOrder : Access
  | writeDec : Access
deriving DecidableEq

/-- A call of `ExecuteTriangle` that places `legs` orders. -/
def ExecuteTriangle.accesses (legs : Nat) : List Access :=
  [Access.read, Access.writeInc] ++ List.replicate legs Access.placeOrder ++
    [Access.read, Access.writeDec]

/-- A call in progress: the accesses it has still to make, the value it last
read, the value of the counter when the call was entered, and the values the
counter had at its `PlaceOrder` calls. -/
structure Call where
  todo : List Access
  reg : Int
  entry : Option Int
  seen : List Int

/-- A call that has not started. -/
def Call.start (legs : Nat) : Call :=
  { todo := ExecuteTriangle.accesses legs, reg := 0, entry := none, seen := [] }

/-- The next access of a call, on the shared counter. -/
def Call.step (counter : Int) (c : Call) : Int × Call :=
  match c.todo with
  | [] => (counter, c)
  | Access.read :: rest =>
    (counter, { c with todo := rest, reg := counter,
                       entry := if c.entry = none then some counter else c.entry })
  | Access.writeInc :: rest => (wrapInt (c.reg + 1), { c with todo := rest })
  | Access.placeOrder :: rest => (counter, { c with todo := rest, seen := c.seen ++ [counter] })
  | Access.writeDec :: rest => (wrapInt (c.reg - 1), { c with todo := rest })

/-- Two detector goroutines calling `ExecuteTriangle` on the one `Executor`
of the robot (`RunDetectors` gives every detector the same `*Robot`). -/
structure Shared where
  Counter : Int
  first : Call
  second : Call

/-- One access of the first call (`true`) or of the second call (`false`). -/
def Shared.step (s : Shared) (who : Bool) : Shared :=
  if who then
    let res := s.first.step s.Counter
    { s with Counter := res.1, first := res.2 }
  else
    let res := s.second.step s.Counter
    { s with Counter := res.1, second := res.2 }

/-- The accesses of two calls, interleaved as the list says. -/
def Shared.run (s : Shared) (order : List Bool) : Shared :=
  order.foldl Shared.step s

/-- The `PlaceOrder` calls of a trace, in order. -/
def calls : List Event → List Order
  | [] => []
  | Event.placeOrder o _ _ _ :: es => o :: calls es
  | _ :: es => calls es

/-! ## Detector (`internal/app/robot/detector.go`) -/

/-- The function `arbitrage_formula`; `x` stays at its zero value for any
other `sequence`. -/
def arbitrage_formula (F : FloatOps) (a b c fee : ℚ) (sequence : String) : ℚ :=
  if sequence = "BBS" then F.sub (F.div c (F.mul a b)) (F.div (F.mul fee 3) 100)
  else if sequence = "SSB" then
    F.sub (F.sub 2 (F.div c (F.mul a b))) (F.div (F.mul fee 3) 100)
  else 0

/-- Element `i` of a Go slice; `none` is the index-out-of-range panic. -/
def index {α : Type} (xs : List α) (i : Int) : Option α :=
  if i < 0 then none else xs[i.toNat]?

/-- The fields of `robot.Robot` that the detector reads: `State` is the
`sync.Map` from base symbol to the last order-book event, `Exec` the
executor. -/
structure Robot (σ : Type) where
  Threashold : ℚ
  State : String → Option OrderBookEvent
  Fee : ℚ
  Lot : ℚ
  Exec : Executor σ

/-- The method `Robot.GetPrice(symbol, side, number)`; `none` is the panic of
an index out of range. -/
def Robot.GetPrice {σ : Type} (r : Robot σ) (symbol side : String) (number : Int) :
    Option ℚ :=
  match r.State symbol with
  | none => some 0
  | some order_book =>
    if order_book.Asks.length = 0 then some 0
    else if side = "ASK" then (index order_book.Asks number).map PriceLevel.Price
    else if side = "BID" then (index order_book.Bids number).map PriceLevel.Price
    else some 0

structure Detector (σ : Type) where
  Triangle : Triangle
  Fee : ℚ
  Robot : Robot σ

/-- The struct `Detection`; `new(Detection)` is `⟨0, 0⟩`. -/
structure Detection where
  bbs : ℚ
  ssb : ℚ
deriving DecidableEq

def Detector.get_price {σ : Type} (d : Detector σ) (symbol side : String) (number : Int) :
    Option ℚ :=
  d.Robot.GetPrice symbol side number

/-- The method `Detector.bbs`, as the update it makes to the shared
`Detection`. -/
def Detector.bbs {σ : Type} (F : FloatOps) (d : Detector σ) (det : Detection) :
    Option Detection :=
  (d.get_price d.Triangle.Initial.GetBaseSymbol "ASK" 0).bind fun a =>
  (d.get_price d.Triangle.Middle.GetBaseSymbol "ASK" 0).bind fun b =>
  (d.get_price d.Triangle.Final.GetBaseSymbol "BID" 0).bind fun c =>
    if a = 0 ∨ b = 0 ∨ c = 0 then some { det with bbs := 0 }
    else some { det with bbs := arbitrage_formula F a b c d.Fee "BBS" }

/-- The method `Detector.ssb`, as the update it makes to the shared
`Detection`: the zero branch writes `det.ssb`, the other branch writes
`det.bbs`. -/
def Detector.ssb {σ : Type} (F : FloatOps) (d : Detector σ) (det : Detection) :
    Option Detection :=
  (d.get_price d.Triangle.Initial.GetBaseSymbol "BID" 0).bind fun a =>
  (d.get_price d.Triangle.Middle.GetBaseSymbol "BID" 0).bind fun b =>
  (d.get_price d.Triangle.Final.GetBaseSymbol "ASK" 0).bind fun c =>
    if a = 0 ∨ b = 0 ∨ c = 0 then some { det with ssb := 0 }
    else some { det with bbs := arbitrage_formula F a b c d.Fee "SSB" }

/-- The order in which the writes of the two goroutines `go d.bbs(...)` and
`go d.ssb(...)` land in the shared `Detection`. Each goroutine makes one
write, so these two orders cover every interleaving. -/
inductive Schedule where
  | bbsThenSsb : Schedule
  | ssbThenBbs : Schedule
deriving DecidableEq

/-- The `Detection` after `wg.Wait()`. -/
def Detector.detect {σ : Type} (F : FloatOps) (d : Detector σ) (sched : Schedule) :
    Option Detection :=
  match sched with
  | Schedule.bbsThenSsb => (d.bbs F ⟨0, 0⟩).bind (d.ssb F)
  | Schedule.ssbThenBbs => (d.ssb F ⟨0, 0⟩).bind (d.bbs F)

/-- What one iteration of the `case <-ticker.C` branch leaves behind: the new
value of the local `possibility`, the executor, the `ExecuteTriangle` call
made on this tick (triangle, sequence, lot) if any, and the events of that
call. -/
structure TickResult (σ : Type) where
  possibility : ℚ
  Exec : Executor σ
  call : Option (Triangle × String × ℚ)
  trace : List Event

/-- One iteration of the `case <-ticker.C` branch of `Detector.Run`, from the
value `possibility` left by the previous iteration. -/
def Detector.tick {σ : Type} (P : PrivateClient σ) (fmt : ℚ → Int → String)
    (F : FloatOps) (d : Detector σ) (sched : Schedule) (possibility : ℚ) :
    Option (TickResult σ) :=
  (d.detect F sched).map fun detection =>
    if detection.bbs > F.add 1 d.Robot.Threashold then
      let cur := F.mul (F.sub detection.bbs 1) 100
      if possibility ≠ cur then
        if d.Robot.Exec.Counter ≥ 3 then
          { possibility := cur, Exec := d.Robot.Exec, call := none, trace := [] }
        else
          let res := ExecuteTriangle P fmt F d.Robot.Exec d.Triangle "BBS" d.Robot.Lot
          { possibility := cur, Exec := res.1.ex,
            call := some (d.Triangle, "BBS", d.Robot.Lot), trace := res.1.trace }
      else
        { possibility := possibility, Exec := d.Robot.Exec, call := none, trace := [] }
    else if detection.ssb > F.add 1 d.Robot.Threashold then
      let cur := F.mul (F.sub detection.bbs 1) 100
      if possibility ≠ cur then
        if d.Robot.Exec.Counter ≥ 3 then
          { possibility := cur, Exec := d.Robot.Exec, call := none, trace := [] }
        else
          let res := ExecuteTriangle P fmt F d.Robot.Exec d.Triangle "SSB" d.Robot.Lot
          { possibility := cur, Exec := res.1.ex,
            call := some (d.Triangle, "SSB", d.Robot.Lot), trace := res.1.trace }
      else
        { possibility := possibility, Exec := d.Robot.Exec, call := none, trace := [] }
    else
      { possibility := 0, Exec := d.Robot.Exec, call := none, trace := [] }

/-! ## Concrete data for evaluation -/

/-- A client that answers its calls from a script, one entry per call, and
rejects every call after the script has run out. -/
def scripted : PrivateClient (List (ℚ × Option Error)) where
  PlaceOrder := fun s _ _ _ _ =>
    match s with
    | [] => ([], 0, some "script exhausted")
    | (qty, err) :: rest => (rest, qty, err)

/-- A formatter for evaluation: the precision and the reduced fraction. -/
def showQ (x : ℚ) (prec : Int) : String :=
  toString prec ++ ":" ++ toString x.num ++ "/" ++ toString x.den

/-- The triangle of the first end-to-end scenario. -/
def tri : Triangle :=
  { Initial := { BaseAsset := "ETH", QuoteAsset := "BTC", BaseSymbol := "ETH+BTC",
                 Symbol := "ETHBTC", BasePrecision := 4, PricePrecision := 6 },
    Middle := { BaseAsset := "XRP", QuoteAsset := "ETH", BaseSymbol := "XRP+ETH",
                Symbol := "XRPETH", BasePrecision := 1, PricePrecision := 5 },
    Final := { BaseAsset := "XRP", QuoteAsset := "BTC", BaseSymbol := "XRP+BTC",
               Symbol := "XRPBTC", BasePrecision := 0, PricePrecision := 8 } }

/-- An order book with one level on each side. -/
def book (symbol : String) (ask bid : ℚ) : OrderBookEvent :=
  { Symbol := symbol, Asks := [⟨ask, 1⟩], Bids := [⟨bid, 1⟩] }

/-- An executor with the given exchange state, counter 0 and fee 0.1. -/
def exec0 {σ : Type} (client : σ) : Executor σ :=
  { Client := client, Counter := 0, Fee := 1 / 10 }

/-- Whether every `PlaceOrder` of a trace is made while the mutex is held:
`held` says whether it is held before the first event. -/
def underLock : Bool → List Event → Bool
  | _, [] => true
  | _, Event.lock :: es => underLock true es
  | _, Event.unlock :: es => underLock false es
  | held, Event.placeOrder _ _ _ _ :: es => held && underLock held es

/-- The errors returned by the `PlaceOrder` calls of a trace, in order. -/
def failures : List Event → List Error
  | [] => []
  | Event.placeOrder _ _ _ (some e) :: es => e :: failures es
  | _ :: es => failures es

/-- The values of `ex.Counter` seen at the `PlaceOrder` calls of a trace. -/
def counters : List Event → List Int
  | [] => []
  | Event.placeOrder _ k _ _ :: es => k :: counters es
  | _ :: es => counters es

/-- A state store holding the three books of `tri`. -/
def store (b1 b2 b3 : OrderBookEvent) : String → Option OrderBookEvent := fun s =>
  if s = "ETH+BTC" then some b1
  else if s = "XRP+ETH" then some b2
  else if s = "XRP+BTC" then some b3
  else none

/-- A robot over the scripted client with threshold 0.001, fee 0.1, lot 1. -/
def robotOf (state : String → Option OrderBookEvent) (counter : Int) :
    Robot (List (ℚ × Option Error)) :=
  { Threashold := 1 / 1000, State := state, Fee := 1 / 10, Lot := 1,
    Exec := { Client := [(1 / 2, none), (2500, none), (1 / 40, none)],
              Counter := counter, Fee := 1 / 10 } }

/-- The detector of `tri` on `robotOf state counter`. -/
def detectorOf (state : String → Option OrderBookEvent) (counter : Int) :
    Detector (List (ℚ × Option Error)) :=
  { Triangle := tri, Fee := 1 / 10, Robot := robotOf state counter }

/-- The books of the first end-to-end scenario: asks 0.05 and 0.0002 on the
initial and middle symbol, bid 0.0000100503 on the final symbol; the other
sides are 0.05, 0.0002 and 0.0000100504. -/
def happyStore : String → Option OrderBookEvent :=
  store (book "ETH+BTC" (1 / 20) (1 / 20)) (book "XRP+ETH" (1 / 5000) (1 / 5000))
    (book "XRP+BTC" (100504 / 10000000000) (100503 / 10000000000))

/-- Books on which only the SSB direction is profitable: bids 0.05 and 0.0002
on the initial and middle symbol, ask 0.0000099 and bid 0.0000098 on the final
symbol. -/
def sellStore : String → Option OrderBookEvent :=
  store (book "ETH+BTC" (1 / 20) (1 / 20)) (book "XRP+ETH" (1 / 5000) (1 / 5000))
    (book "XRP+BTC" (99 / 10000000) (98 / 10000000))

/-- Books on which a BBS price is zero and the SSB direction is profitable:
bid 0 on the final symbol; bids 0.05 and 0.0002 on the initial and middle
symbol and ask 0.0000099 on the final symbol. -/
def zeroBidStore : String → Option OrderBookEvent :=
  store (book "ETH+BTC" (1 / 20) (1 / 20)) (book "XRP+ETH" (1 / 5000) (1 / 5000))
    (book "XRP+BTC" (99 / 10000000) 0)

/-- The books of the second end-to-end scenario: 0.05, 0.0002 and 0.00001 on
both sides of the initial, middle and final symbol. -/
def missStore : String → Option OrderBookEvent :=
  store (book "ETH+BTC" (1 / 20) (1 / 20)) (book "XRP+ETH" (1 / 5000) (1 / 5000))
    (book "XRP+BTC" (1 / 100000) (1 / 100000))

/-- The decimal digits of `n` with `p` digits after the point. -/
def renderFixed (n p : Nat) : String :=
  if p = 0 then toString n
  else
    let frac := toString (n % 10 ^ p)
    toString (n / 10 ^ p) ++ "." ++ String.mk (List.replicate (p - frac.length) '0') ++ frac

/-- A formatter for evaluation in `float64` arithmetic: the rendering
`strconv.FormatFloat(x, 'f', prec, 64)` for `prec ≥ 0`, which is the exact
decimal expansion of `x` rounded to `prec` digits after the point, a tie going
to the even digit. -/
def fixedPoint (x : ℚ) (prec : Int) : String :=
  if x < 0 then "-" ++ renderFixed (roundHalfEven (-x * 10 ^ prec.toNat)).toNat prec.toNat
  else renderFixed (roundHalfEven (x * 10 ^ prec.toNat)).toNat prec.toNat

/-- The triangle `tri` with price precision 3 on the middle symbol. -/
def tri3 : Triangle :=
  { tri with Middle := { tri.Middle with PricePrecision := 3 } }

/-- An executor with the given exchange state, counter 0 and the `float64`
nearest to 0.1 as fee. -/
def exec64 {σ : Type} (client : σ) : Executor σ :=
  { Client := client, Counter := 0, Fee := dbl 3602879701896397 55 }

/-- A robot over the scripted client whose threshold, fee and lot are the
`float64` values of 0.001, 0.1 and 1. -/
def robot64 (state : String → Option OrderBookEvent) (counter : Int) :
    Robot (List (ℚ × Option Error)) :=
  { Threashold := dbl 1152921504606847 60, State := state, Fee := dbl 3602879701896397 55,
    Lot := 1,
    Exec := { Client := [(1 / 2, none), (2500, none), (1 / 40, none)],
              Counter := counter, Fee := dbl 3602879701896397 55 } }

/-- The detector of `tri` on `robot64 state counter`. -/
def detector64 (state : String → Option OrderBookEvent) (counter : Int) :
    Detector (List (ℚ × Option Error)) :=
  { Triangle := tri, Fee := dbl 3602879701896397 55, Robot := robot64 state counter }

/-- The books of the second end-to-end scenario in `float64`: the values
nearest to 0.05, 0.0002 and 0.00001 on both sides of the initial, middle and
final symbol. -/
def missStore64 : String → Option OrderBookEvent :=
  store (book "ETH+BTC" (dbl 3602879701896397 56) (dbl 3602879701896397 56))
    (book "XRP+ETH" (dbl 7378697629483821 65) (dbl 7378697629483821 65))
    (book "XRP+BTC" (dbl 5902958103587057 69) (dbl 5902958103587057 69))

/-- Books at the threshold: the `float64` values nearest to 0.05, 0.0002 and
0.00001004 on both sides of the initial, middle and final symbol. -/
def edgeStore64 : String → Option OrderBookEvent :=
  store (book "ETH+BTC" (dbl 3602879701896397 56) (dbl 3602879701896397 56))
    (book "XRP+ETH" (dbl 7378697629483821 65) (dbl 7378697629483821 65))
    (book "XRP+BTC" (dbl 5926569936001405 69) (dbl 5926569936001405 69))

/-- A state store whose only entry has one ask level and no bid level. -/
def askOnlyStore : String → Option OrderBookEvent := fun s =>
  if s = "ETH+BTC" then some { Symbol := "ETH+BTC", Asks := [⟨101, 1 / 2⟩], Bids := [] }
  else none

/-! ## Go maps -/

/-- A Go `map[string]V`: its entries, with distinct keys. The position of an
entry in the list carries no meaning: the order in which a `range` loop visits
the entries is chosen by the runtime and is a separate parameter `iter` of
every function that ranges over a map. -/
abbrev GoMap (V : Type) := List (String × V)

/-- The statement `delete(m, k)`. -/
def GoMap.delete {V : Type} (m : GoMap V) (k : String) : GoMap V :=
  m.filter (fun e => e.1 != k)

/-- The statement `m[k] = v`. -/
def GoMap.set {V : Type} (m : GoMap V) (k : String) (v : V) : GoMap V :=
  m.delete k ++ [(k, v)]

/-- The expression `m[k]` with its `ok` flag. -/
def GoMap.get {V : Type} (m : GoMap V) (k : String) : Option V :=
  (m.find? (fun e => e.1 == k)).map Prod.snd

/-- The keys of a map. -/
def GoMap.keys {V : Type} (m : GoMap V) : List String := m.map Prod.fst

/-! ## Bybit order-book stream (`internal/app/market/bybit.go`) -/

/-- The struct `eventData` of `BybitPublicClient.RunOrderBookStream`. -/
structure Bybit.eventData where
  Symbol : String
  Asks : List (List String)
  Bids : List (List String)

/-- The struct `event`: a decoded stream message. -/
structure Bybit.event where
  type : String
  Data : Bybit.eventData

/-- The variables `snapshotA`, `snapshotB` captured by `OnMessage`; `none` is
the nil map they hold before the first snapshot. -/
structure Bybit.Stream where
  snapshotA : Option (GoMap String)
  snapshotB : Option (GoMap String)
deriving DecidableEq

/-- The loop `for _, price_level := range levels { m[price_level[0]] =
price_level[1] }` of the snapshot case; `none` is the index panic. -/
def Bybit.storeLevels (m : GoMap String) : List (List String) → Option (GoMap String)
  | [] => some m
  | price_level :: rest =>
    match price_level[0]?, price_level[1]? with
    | some p, some q => Bybit.storeLevels (m.set p q) rest
    | _, _ => none

/-- The loop over the levels of the delta case: `delete(m, delta[0])` when
`delta[1] == "0"`, otherwise `m[delta[0]] = delta[1]`; `none` is a panic (an
index out of range, or an assignment to an entry of the nil map). -/
def Bybit.applyDeltas (m : Option (GoMap String)) :
    List (List String) → Option (Option (GoMap String))
  | [] => some m
  | delta :: rest =>
    match delta[1]? with
    | none => none
    | some q =>
      if q = "0" then
        match delta[0]? with
        | none => none
        | some p => Bybit.applyDeltas (m.map fun mm => mm.delete p) rest
      else
        match delta[0]?, m with
        | some p, some mm => Bybit.applyDeltas (some (mm.set p q)) rest
        | _, _ => none

/-- The loop `for p, q := range m { levels = append(levels, PriceLevel{...}) }`
that fills one side of the emitted book: `iter` is the order in which the
runtime visits the entries, `parse` is `strconv.ParseFloat(_, 64)` with its
error dropped. A nil map has no entries. -/
def Bybit.levels (parse : String → ℚ) (iter : GoMap String → List (String × String))
    (m : Option (GoMap String)) : List PriceLevel :=
  match m with
  | none => []
  | some mm => (iter mm).map fun e => { Price := parse e.1, Quantity := parse e.2 }

/-- The handler `wsApp.OnMessage` on a decoded message: the new values of
`snapshotA`, `snapshotB` and the book handed to `handler`, if any; `none` is a
panic. -/
def Bybit.OnMessage (parse : String → ℚ) (iter : GoMap String → List (String × String))
    (symbol : MarketSymbol) (st : Bybit.Stream) (e : Bybit.event) :
    Option (Bybit.Stream × Option OrderBookEvent) :=
  let emit := fun (st : Bybit.Stream) =>
    (st, some { Symbol := symbol.GetBaseSymbol,
                Asks := Bybit.levels parse iter st.snapshotA,
                Bids := Bybit.levels parse iter st.snapshotB })
  if e.type = "snapshot" then
    (Bybit.storeLevels [] e.Data.Bids).bind fun b =>
    (Bybit.storeLevels [] e.Data.Asks).bind fun a =>
      some (emit { snapshotA := some a, snapshotB := some b })
  else if e.type = "delta" then
    (Bybit.applyDeltas st.snapshotB e.Data.Bids).bind fun b =>
    (Bybit.applyDeltas st.snapshotA e.Data.Asks).bind fun a =>
      some (emit { snapshotA := a, snapshotB := b })
  else some (st, none)

/-- The stream state after a sequence of messages. -/
def Bybit.run (parse : String → ℚ) (iter : GoMap String → List (String × String))
    (symbol : MarketSymbol) (st : Bybit.Stream) : List Bybit.event → Option Bybit.Stream
  | [] => some st
  | e :: es =>
    match Bybit.OnMessage parse iter symbol st e with
    | none => none
    | some (st1, _) => Bybit.run parse iter symbol st1 es

/-- The book emitted for the last message of a sequence, if any. -/
def Bybit.lastBook (parse : String → ℚ) (iter : GoMap String → List (String × String))
    (symbol : MarketSymbol) (st : Bybit.Stream) : List Bybit.event → Option OrderBookEvent
  | [] => none
  | [e] => (Bybit.OnMessage parse iter symbol st e).bind Prod.snd
  | e :: es =>
    match Bybit.OnMessage parse iter symbol st e with
    | none => none
    | some (st1, _) => Bybit.lastBook parse iter symbol st1 es

/-- A stream message of the given type whose levels are `[price, quantity]`
pairs. -/
def Bybit.message (type symbol : String) (asks bids : List (String × String)) :
    Bybit.event :=
  { type := type,
    Data := { Symbol := symbol, Asks := asks.map fun l => [l.1, l.2],
              Bids := bids.map fun l => [l.1, l.2] } }

/-- Spec, reconciliation step on one level: remove the price key when the
quantity is "0", otherwise set price ↦ quantity. -/
def Spec.step (m : GoMap String) (level : String × String) : GoMap String :=
  if level.2 = "0" then m.delete level.1 else m.set level.1 level.2

/-- Spec, the reconciled map of one side: the left fold of `Spec.step` over
the levels of the deltas, starting from the price ↦ quantity map of the
snapshot. -/
def Spec.reconcile (snapshot : List (String × String))
    (deltas : List (List (String × String))) : GoMap String :=
  deltas.foldl (fun m d => d.foldl Spec.step m)
    (snapshot.foldl (fun m l => m.set l.1 l.2) [])

/-- One step of reading an unsigned decimal string: the digits read so far as
a number, and the count of digits after the point once the point is read. -/
def decimalStep (st : Option (Nat × Option Nat)) (c : Char) : Option (Nat × Option Nat) :=
  match st with
  | none => none
  | some (m, k) =>
    if c = '.' then (match k with | none => some (m, some 0) | some _ => none)
    else if c.isDigit then some (m * 10 + (c.toNat - 48), k.map fun j => j + 1)
    else none

/-- The digits and the scale of an unsigned decimal string. -/
def decimalParts (s : String) : Option (Nat × Option Nat) :=
  s.data.foldl decimalStep (some (0, none))

/-- A stand-in for `strconv.ParseFloat(s, 64)` with the error dropped, for
evaluation on unsigned decimal strings: the exact value, and 0 for any other
string. -/
def parseDecimal (s : String) : ℚ :=
  match decimalParts s with
  | some (m, k) => (m : ℚ) / 10 ^ (k.getD 0)
  | none => 0

/-! ## Precision extraction (`internal/app/market/market.go`) -/

/-- Go's `len` of a string given by its characters: the number of bytes of
its UTF-8 encoding. -/
def byteLen : List Char → Nat
  | [] => 0
  | c :: cs => c.utf8Size + byteLen cs

/-- The byte offset of the first occurrence of `c` in the characters that
start at byte offset `i`, or -1. -/
def strings.Index.go (c : Char) : List Char → Nat → Int
  | [], _ => -1
  | x :: xs, i => if x = c then (i : Int) else strings.Index.go c xs (i + x.utf8Size)

/-- Go's `strings.Index(s, substr)` for a `substr` of one character. -/
def strings.Index (s : String) (c : Char) : Int :=
  strings.Index.go c s.data 0

/-- The function `GetPrecision`; `none` is the panic of the slice expression
`numStr[dotIndex:oneIndex]`, which needs
`0 ≤ dotIndex ≤ oneIndex ≤ len(numStr)`. -/
def GetPrecision (numStr : String) : Option Int :=
  let dotIndex := strings.Index numStr '.'
  let oneIndex := strings.Index numStr '1'
  if dotIndex = -1 then some 0
  else if oneIndex = 0 then some 0
  else if 0 ≤ dotIndex ∧ dotIndex ≤ oneIndex ∧ oneIndex ≤ (byteLen numStr.data : Int) then
    some (oneIndex - dotIndex)
  else none

/-! ## Query strings and signatures (`binance.go`, `bybit.go`) -/

/-- A value of type `interface{}` held by a parameter map. -/
inductive Value where
  | nil : Value
  | str (s : String) : Value
  | int (n : Int) : Value
  | float (x : ℚ) : Value
deriving DecidableEq

/-- The rendering `fmt.Sprintf("%v", v)`; the rendering of a `float64` is
library code and is the parameter `fmtFloat`. -/
def Sprintv (fmtFloat : ℚ → String) : Value → String
  | Value.nil => "<nil>"
  | Value.str s => s
  | Value.int n => toString n
  | Value.float x => fmtFloat x

def BinanceHost : String := "https://api.binance.com"

def BybitHost : String := "https://api.bybit.com"

/-- Go's `a <= b` on strings: lexical byte-wise comparison, which on UTF-8
text is the lexical comparison of the code points. -/
def stringLe (a b : String) : Prop :=
  a.data.map Char.toNat ≤ b.data.map Char.toNat

instance stringLe.decidable : DecidableRel stringLe := fun a b =>
  inferInstanceAs (Decidable (a.data.map Char.toNat ≤ b.data.map Char.toNat))

/-- Go's `sort.Strings(keys)`: the keys in ascending order. -/
def sort.Strings (keys : List String) : List String :=
  keys.insertionSort stringLe

/-- The first two loops of `Perform` and `PerformSign`: the keys of `query`
are collected in the order `iter` in which `range` visits them, sorted by
`sort.Strings`, and copied with their values into the new map `sortedQuery`. -/
def sortedQuery (iter : GoMap Value → List (String × Value)) (query : GoMap Value) :
    GoMap Value :=
  let keys := sort.Strings ((iter query).map Prod.fst)
  keys.foldl (fun m k => m.set k ((query.get k).getD Value.nil)) []

/-- The loop `for k, v := range m { if v != nil { queryStrings =
append(queryStrings, fmt.Sprintf("%s=%v", k, v)) } }`, visiting the entries in
the order `iter`. -/
def queryStrings (sprintv : Value → String) (iter : GoMap Value → List (String × Value))
    (m : GoMap Value) : List String :=
  ((iter m).filter fun e => e.2 != Value.nil).map fun e => e.1 ++ "=" ++ sprintv e.2

/-- The URL requested by `BinancePublicClient.Perform`; `iter1`, `iter2` are
the orders of its two `range` loops over maps. -/
def BinancePublicClient.Perform.url (sprintv : Value → String)
    (iter1 iter2 : GoMap Value → List (String × Value)) (query : GoMap Value)
    (method : String) : String :=
  let sortedQuery := sortedQuery iter1 query
  let queryString := "&".intercalate (queryStrings sprintv iter2 sortedQuery)
  BinanceHost ++ "/" ++ method ++ "?" ++ queryString

/-- The loop of the Bybit clients that turns a `float64` `f` into the `int`
`int(f)` when `f == float64(int(f))`: when `f` is integral and in the range of
a 64-bit `int`. -/
def floatsToInts (iter : GoMap Value → List (String × Value)) (m : GoMap Value) :
    GoMap Value :=
  (iter m).foldl (fun acc e =>
    match e.2 with
    | Value.float f =>
      if f = ((Int.tdiv f.num f.den : Int) : ℚ) ∧
          -9223372036854775808 ≤ Int.tdiv f.num f.den ∧
          Int.tdiv f.num f.den < 9223372036854775808 then
        acc.set e.1 (Value.int (Int.tdiv f.num f.den)) else acc
    | _ => acc) m

/-- The URL requested by `BybitPublicClient.Perform`; `iter1`, `iter2`,
`iter3` are the orders of its three `range` loops over maps. -/
def BybitPublicClient.Perform.url (sprintv : Value → String)
    (iter1 iter2 iter3 : GoMap Value → List (String × Value)) (query : GoMap Value)
    (method : String) : String :=
  let sortedQuery := sortedQuery iter1 query
  let sortedQuery := floatsToInts iter2 sortedQuery
  let queryString := "&".intercalate (queryStrings sprintv iter3 sortedQuery)
  BybitHost ++ "/" ++ method ++ "?" ++ queryString

/-- The method `BinancePrivateClient.generateSignature`; `hmacHex secret data`
stands for the hex encoding of HMAC-SHA256 of `data` under `secret`, which is
library code. -/
def BinancePrivateClient.generateSignature (hmacHex : String → String → String)
    (secret queryString : String) : String :=
  hmacHex secret queryString

/-- The URL requested by `BinancePrivateClient.PerformSign`; `iter1`, `iter2`,
`iter3` are the orders of its three `range` loops over maps. The last loop
has no `nil` test. -/
def BinancePrivateClient.PerformSign.url (hmacHex : String → String → String)
    (sprintv : Value → String) (iter1 iter2 iter3 : GoMap Value → List (String × Value))
    (secret : String) (query : GoMap Value) (method : String) : String :=
  let sortedQuery := sortedQuery iter1 query
  let queryString := "&".intercalate (queryStrings sprintv iter2 sortedQuery)
  let sortedQuery := sortedQuery.set "signature"
    (Value.str (BinancePrivateClient.generateSignature hmacHex secret queryString))
  let payload := "&".intercalate ((iter3 sortedQuery).map fun e => e.1 ++ "=" ++ sprintv e.2)
  BinanceHost ++ "/" ++ method ++ "?" ++ payload

/-- A stand-in for the HMAC for evaluation: it shows the key and the signed
string. -/
def showHmac (secret data : String) : String :=
  "HMAC[" ++ secret ++ "|" ++ data ++ "]"

/-- The string signed by `BybitPrivateClient.generateSignature`:
`fmt.Sprintf("%d%s%d%s", timestamp, c.Key, recvWindow, queryString)`. -/
def BybitPrivateClient.signedData (timestamp : Int) (key : String) (recvWindow : Int)
    (queryString : String) : String :=
  toString timestamp ++ key ++ toString recvWindow ++ queryString

/-- The method `BybitPrivateClient.generateSignature`; `recvWindow` is the
value of `strconv.Atoi(BybitHeaders["X-BAPI-RECV-WINDOW"])`, 5000 for the
header as initialised, and `hmacHex secret data` stands for the hex encoding
of HMAC-SHA256 of `data` under `secret`. -/
def BybitPrivateClient.generateSignature (hmacHex : String → String → String)
    (secret key : String) (recvWindow : Int) (queryString : String) (timestamp : Int) :
    String :=
  let data := BybitPrivateClient.signedData timestamp key recvWindow queryString
  hmacHex secret data

/-- The entries rendered by the `GET` branch of `PreparePayload`: the keys are
collected in the order `iter` of the `range` loop, sorted, and visited in
sorted order; an entry whose value `parameters[k]` is `nil` is skipped. -/
def PreparePayload.entries (iter : GoMap Value → List (String × Value))
    (parameters : GoMap Value) : List (String × Value) :=
  (sort.Strings ((iter parameters).map Prod.fst)).filterMap fun k =>
    match (parameters.get k).getD Value.nil with
    | Value.nil => none
    | v => some (k, v)

/-- The `GET` branch of `PreparePayload`. -/
def PreparePayload.GET (sprintv : Value → String)
    (iter : GoMap Value → List (String × Value)) (parameters : GoMap Value) : String :=
  "&".intercalate
    ((PreparePayload.entries iter parameters).map fun e => e.1 ++ "=" ++ sprintv e.2)

/-- The number written by a list of decimal digit characters. -/
def digitsValue (cs : List Char) : Nat :=
  cs.foldl (fun acc c => acc * 10 + (c.toNat - 48)) 0

/-! ## WebSocket transport (`pkg/websocket/websocket.go`) -/

/-- The fields of `WebSocketApp` that `Run` sets: `ReadLimit` is the read
limit of `ws.Connection` in bytes, 0 when none was set. -/
structure WebSocketApp where
  ReadLimit : Int
  IsRunning : Bool
deriving DecidableEq

/-- The method `WebSocketApp.Run` up to the start of the reader goroutine;
`connectErr` is the error returned by `ws.connect()`. -/
def WebSocketApp.Run (ws : WebSocketApp) (connectErr : Option Error) :
    WebSocketApp × Option Error :=
  match connectErr with
  | some err => (ws, some err)
  | none => ({ ws with ReadLimit := 655350, IsRunning := true }, none)

/-! ## Control plane (`internal/app/apiserver/server.go`) -/

/-- The decoded body of a start or update request. -/
structure request where
  Delta : ℚ
  Market : String
  API_KEY : String
  Secret : String
  Fee : ℚ
  Lot : ℚ

/-- One call of `s.respond(w, code, data)`: the status code and the body,
either the `error` object written by `s.raiseError` or the `status` object. -/
inductive Response where
  | error (code : Nat) (message : String) : Response
  | status (code : Nat) (status : String) : Response
deriving DecidableEq

/-- The `*robot.Robot` held by the server: `Name` is `Public.Name()`, `Key`
and `Secret` are `Private.GetKey()` and `Private.GetSecret()`, and `Robot`
holds the fields that the detectors and the executor read. -/
structure Engine (σ : Type) where
  Name : String
  Key : String
  Secret : String
  Robot : Robot σ

/-- The fields of `server` that the handlers use; `bot = none` is the nil
pointer. -/
structure server (σ : Type) where
  bot : Option (Engine σ)
  inProcess : Bool
  botIsRunning : Bool

/-- The function `robot.CreateRobot`: it fails for a market other than
"BINANCE" and "BYBIT" (`market.NewPublicClient`); `client` is the state of
the exchange behind the new private client. The executor's fee is the value
it points to once `Start` has run. -/
def CreateRobot {σ : Type} (client : σ) (market_name api_key secret : String)
    (delta fee lot : ℚ) : Except Error (Engine σ) :=
  if market_name = "BINANCE" ∨ market_name = "BYBIT" then
    Except.ok
      { Name := market_name, Key := api_key, Secret := secret,
        Robot := { Threashold := delta, State := fun _ => none, Fee := fee, Lot := lot,
                   Exec := { Client := client, Counter := 0, Fee := fee } } }
  else Except.error ("unsupported market: " ++ market_name)

/-- The handler of `POST /robot`: the server afterwards and the calls of
`s.respond`. `body` is the decoded request or the decoding error, `start` the
error returned by `bot.Start()`. The deferred reset leaves `inProcess` false
on every path. -/
def server.handleStartRobot {σ : Type} (client : σ) (start : Engine σ → Option Error)
    (s : server σ) (body : Except Error request) : server σ × List Response :=
  if s.inProcess then
    ({ s with inProcess := false }, [Response.error 400 "service is busy"])
  else if s.botIsRunning then
    ({ s with inProcess := false }, [Response.error 400 "robot has been already launched"])
  else
    match body with
    | Except.error err => ({ s with inProcess := false }, [Response.error 400 err])
    | Except.ok req =>
      match CreateRobot client req.Market req.API_KEY req.Secret (req.Delta / 100) req.Fee
          req.Lot with
      | Except.error err => ({ s with inProcess := false }, [Response.error 400 err])
      | Except.ok bot =>
        match start bot with
        | some err => ({ s with inProcess := false }, [Response.error 400 err])
        | none =>
          ({ bot := some bot, inProcess := false, botIsRunning := true },
           [Response.status 201 "ok"])

/-- The handler of `PUT /robot`: the server afterwards and the calls of
`s.respond`, in order; `none` is the panic of `s.bot.Public.Name()` on a nil
`s.bot`. Only the decoding error returns early; after each of the three
`raiseError` calls the handler goes on. The write to `s.bot.Fee` is seen by
the executor through its pointer. -/
def server.handleUpdateRobot {σ : Type} (s : server σ) (body : Except Error request) :
    Option (server σ × List Response) :=
  match body with
  | Except.error err => some (s, [Response.error 400 err])
  | Except.ok req =>
    let w : List Response := []
    let w := if ¬ s.botIsRunning then w ++ [Response.error 400 "robot is not running"] else w
    match s.bot with
    | none => none
    | some bot =>
      let w :=
        if req.Market ≠ bot.Name ∨ req.API_KEY ≠ bot.Key ∨ req.Secret ≠ bot.Secret then
          w ++ [Response.error 400 "you can update either delta, lot or fee"]
        else w
      let w :=
        if req.Delta = bot.Robot.Threashold ∧ req.Lot = bot.Robot.Lot ∧
            req.Fee = bot.Robot.Fee then
          w ++ [Response.error 400 "no new parameters in request"]
        else w
      let bot := { bot with Robot := { bot.Robot with
        Threashold := req.Delta, Lot := req.Lot, Fee := req.Fee,
        Exec := { bot.Robot.Exec with Fee := req.Fee } } }
      some ({ s with bot := some bot }, w ++ [Response.status 201 "ok"])

/-- The threshold, lot and fee of the engine held by a server. -/
def server.settings {σ : Type} (s : server σ) : Option (ℚ × ℚ × ℚ) :=
  s.bot.map fun b => (b.Robot.Threashold, b.Robot.Lot, b.Robot.Fee)

/-- A server that has served no request. -/
def server0 : server (List (ℚ × Option Error)) :=
  { bot := none, inProcess := false, botIsRunning := false }

/-- The server after an accepted start request for BINANCE with the given
delta (in percent), lot and fee. -/
def startedServer (delta lot fee : ℚ) : server (List (ℚ × Option Error)) :=
  (server0.handleStartRobot [] (fun _ => none)
    (Except.ok { Delta := delta, Market := "BINANCE", API_KEY := "key", Secret := "sec",
                 Fee := fee, Lot := lot })).1

/-! ## Loading triangles (`internal/app/robot/robot.go`) -/

/-- A `robot.Triangle` as `readTriangles` builds it: each field is the
interface value found in `r.Symbols`, `none` being the nil interface that the
map returns for a missing key. -/
structure LoadedTriangle where
  Initial : Option MarketSymbol
  Middle : Option MarketSymbol
  Final : Option MarketSymbol
deriving DecidableEq

/-- The method `Robot.readTriangles`: the new value of `r.Triangles` and the
returned error. `file` is the outcome of `os.ReadFile` and `json.Unmarshal`
into `[][3]string`: the decoded triples or the error. -/
def readTriangles (Symbols : GoMap MarketSymbol) (Triangles : List LoadedTriangle)
    (file : Except Error (List (String × String × String))) :
    List LoadedTriangle × Option Error :=
  match file with
  | Except.error err => (Triangles, some err)
  | Except.ok trianlges =>
    (Triangles ++ trianlges.map fun t =>
      { Initial := Symbols.get t.1, Middle := Symbols.get t.2.1, Final := Symbols.get t.2.2 },
     none)

/-- The symbol that `CreateSymbol` builds from "BASE+QUOTE", here from its two
assets. -/
def symbolOf (base quote : String) : MarketSymbol :=
  { BaseAsset := base, QuoteAsset := quote, BaseSymbol := base ++ "+" ++ quote,
    Symbol := base ++ quote, BasePrecision := 0, PricePrecision := 0 }

/-! ## Instrument information (`binance.go`, `bybit.go`) -/

/-- The struct `filter` of `BinancePublicClient.GetInstrumentsInfo`;
`filterType` is its field `Type`. -/
structure Binance.filter where
  filterType : String
  TickSize : String
  StepSize : String

structure Binance.SymbolData where
  Symbol : String
  Filters : List Binance.filter

/-- The decoded response of `api/v3/exchangeInfo`. -/
structure Binance.response where
  Code : Int
  Message : String
  List : List Binance.SymbolData

/-- The closure `findSymbol`. -/
def Binance.findSymbol (data : List Binance.SymbolData) (symbol : String) :
    Option Binance.SymbolData :=
  data.find? fun elm => elm.Symbol == symbol

/-- The loop over `data.Filters`; `none` is a panic of `GetPrecision`. -/
def Binance.applyFilters (s : MarketSymbol) : List Binance.filter → Option MarketSymbol
  | [] => some s
  | f :: fs =>
    if f.filterType = "PRICE_FILTER" then
      (GetPrecision f.TickSize).bind fun p =>
        Binance.applyFilters { s with PricePrecision := p } fs
    else if f.filterType = "LOT_SIZE" then
      (GetPrecision f.StepSize).bind fun p =>
        Binance.applyFilters { s with BasePrecision := p } fs
    else Binance.applyFilters s fs

/-- The loop `for _, s := range symbols` of the Binance client: the symbols
afterwards and the returned error; `none` is a panic. -/
def Binance.setPrecisions (res : List Binance.SymbolData) :
    List MarketSymbol → Option (List MarketSymbol × Option Error)
  | [] => some ([], none)
  | s :: rest =>
    match Binance.findSymbol res s.GetSymbol with
    | none =>
      some (s :: rest,
        some ("can't find precision information for symbol " ++ s.GetBaseSymbol))
    | some data =>
      (Binance.applyFilters s data.Filters).bind fun s1 =>
        (Binance.setPrecisions res rest).map fun r => (s1 :: r.1, r.2)

/-- The method `BinancePublicClient.GetInstrumentsInfo` from the return of
`c.Perform` on: `resp` is the decoded response or the error of `Perform`. -/
def BinancePublicClient.GetInstrumentsInfo (resp : Except Error Binance.response)
    (symbols : List MarketSymbol) : Option (List MarketSymbol × Option Error) :=
  match resp with
  | Except.error err => some (symbols, some err)
  | Except.ok resp =>
    if resp.Code ≠ 0 then
      some (symbols, some ("binance error: code: " ++ toString resp.Code ++ ", message: " ++
        resp.Message))
    else Binance.setPrecisions resp.List symbols

/-- The struct `filter` of `BybitPublicClient.GetInstrumentsInfo`. -/
structure Bybit.filter where
  BasePrecision : String
  TickSize : String

structure Bybit.SymbolData where
  Symbol : String
  Margin : String
  PriceFilter : Bybit.filter
  LotSizeFilter : Bybit.filter

/-- The response of `/v5/market/instruments-info`: `retMsg`, `retCode` and
the JSON array `result.list` of the body. -/
structure Bybit.response where
  Message : String
  Code : Int
  List : List Bybit.SymbolData

/-- The zero value of `SymbolData`. -/
def Bybit.SymbolData.zero : Bybit.SymbolData :=
  { Symbol := "", Margin := "", PriceFilter := { BasePrecision := "", TickSize := "" },
    LotSizeFilter := { BasePrecision := "", TickSize := "" } }

/-- The array `resp.Result.List` of type `[1000]SymbolData` as
`json.Unmarshal` fills it from the JSON array: the elements after the
thousandth are dropped, and the entries the JSON array does not reach keep
their zero value. -/
def Bybit.decodeList (list : List Bybit.SymbolData) : List Bybit.SymbolData :=
  list.take 1000 ++ List.replicate (1000 - list.length) Bybit.SymbolData.zero

/-- The closure `findSymbol`. -/
def Bybit.findSymbol (data : List Bybit.SymbolData) (symbol : String) :
    Option Bybit.SymbolData :=
  data.find? fun elm => elm.Symbol == symbol

/-- The loop `for _, s := range symbols` of the Bybit client: the symbols
afterwards and the returned error; `none` is a panic of `GetPrecision`. -/
def Bybit.setPrecisions (res : List Bybit.SymbolData) :
    List MarketSymbol → Option (List MarketSymbol × Option Error)
  | [] => some ([], none)
  | s :: rest =>
    match Bybit.findSymbol res s.GetSymbol with
    | none =>
      some (s :: rest,
        some ("can't find precision information for symbol " ++ s.GetBaseSymbol))
    | some data =>
      (GetPrecision data.LotSizeFilter.BasePrecision).bind fun bp =>
      (GetPrecision data.PriceFilter.TickSize).bind fun pp =>
        (Bybit.setPrecisions res rest).map fun r =>
          ({ s with BasePrecision := bp, PricePrecision := pp } :: r.1, r.2)

/-- The method `BybitPublicClient.GetInstrumentsInfo` from the return of
`c.Perform` on: `resp` is the response or the error of `Perform`. -/
def BybitPublicClient.GetInstrumentsInfo (resp : Except Error Bybit.response)
    (symbols : List MarketSymbol) : Option (List MarketSymbol × Option Error) :=
  match resp with
  | Except.error err => some (symbols, some err)
  | Except.ok resp =>
    if resp.Code ≠ 0 then
      some (symbols, some ("bybit error: code: " ++ toString resp.Code ++ ", message: " ++
        resp.Message))
    else Bybit.setPrecisions (Bybit.decodeList resp.List) symbols

/-! ## Theorems -/

/-- The value of `roundHalfEven` strictly inside a rounding interval. -/
theorem roundHalfEven_eq (y : ℚ) (m : Int) (h1 : (m : ℚ) - 1 / 2 < y)
    (h2 : y < (m : ℚ) + 1 / 2) : roundHalfEven y = m := by
  have hf1 : (⌊y⌋ : ℚ) ≤ y := Int.floor_le y
  have hf2 : y < (⌊y⌋ : ℚ) + 1 := Int.lt_floor_add_one y
  have hlo : m - 1 ≤ ⌊y⌋ := by
    have : ((m - 1 : Int) : ℚ) < (⌊y⌋ : ℚ) + 1 := by push_cast; linarith
    have : (m - 1 : Int) < ⌊y⌋ + 1 := by exact_mod_cast this
    omega
  have hhi : ⌊y⌋ ≤ m := by
    have : (⌊y⌋ : ℚ) < ((m + 1 : Int) : ℚ) := by push_cast; linarith
    have : ⌊y⌋ < m + 1 := by exact_mod_cast this
    omega
  rcases (by omega : ⌊y⌋ = m ∨ ⌊y⌋ = m - 1) with h | h
  · have hlt : y - (⌊y⌋ : ℚ) < 1 / 2 := by rw [h]; linarith
    simp only [roundHalfEven, hlt, if_true]
    exact h
  · have hc : ((⌊y⌋ : Int) : ℚ) = (m : ℚ) - 1 := by rw [h]; push_cast; ring
    have hnlt : ¬ (y - (⌊y⌋ : ℚ) < 1 / 2) := by rw [hc]; intro hh; linarith
    have hgt : 1 / 2 < y - (⌊y⌋ : ℚ) := by rw [hc]; linarith
    simp only [roundHalfEven, hnlt, hgt, if_true, if_false]
    omega

/-- A number that is not negative rounds to an integer that is not negative. -/
theorem roundHalfEven_nonneg (y : ℚ) (h : 0 ≤ y) : 0 ≤ roundHalfEven y := by
  have hf : 0 ≤ ⌊y⌋ := Int.floor_nonneg.2 h
  unfold roundHalfEven
  simp only
  split_ifs <;> omega

/-- The value of `roundHalfEven` half-way between two integers. -/
theorem roundHalfEven_tie (y : ℚ) (f : Int) (h : y = (f : ℚ) + 1 / 2) :
    roundHalfEven y = if f % 2 = 0 then f else f + 1 := by
  have hfl : ⌊y⌋ = f := by
    rw [Int.floor_eq_iff]
    constructor <;> rw [h] <;> linarith
  have h1 : ¬ (y - (f : ℚ) < 1 / 2) := by rw [h]; intro hh; linarith
  have h2 : ¬ (1 / 2 < y - (f : ℚ)) := by rw [h]; intro hh; linarith
  simp only [roundHalfEven, hfl, h1, h2, if_false]

/-- The value of `round64` at a positive `x`: for `x` in the binade of
exponent `e + 52`, it is `m · 2^e` where `m` is `x / 2^e` rounded. -/
theorem round64_eq_pos (x : ℚ) (e m : Int) (hlo : (2 : ℚ) ^ (e + 52) ≤ x)
    (hhi : x < (2 : ℚ) ^ (e + 52 + 1)) (hr : roundHalfEven (x / 2 ^ e) = m) :
    round64 x = (m : ℚ) * 2 ^ e := by
  have hpos : 0 < x := lt_of_lt_of_le (zpow_pos (by norm_num) _) hlo
  have hx : x ≠ 0 := ne_of_gt hpos
  have habs : |x| = x := abs_of_pos hpos
  have hlog : Int.log 2 |x| = e + 52 := by
    rw [habs]
    apply le_antisymm
    · have := (Int.lt_zpow_iff_log_lt (R := ℚ) (b := 2) (by norm_num) hpos).1
        (by exact_mod_cast hhi)
      omega
    · exact (Int.zpow_le_iff_le_log (R := ℚ) (b := 2) (by norm_num) hpos).1
        (by exact_mod_cast hlo)
  simp only [round64, hx, if_false, hlog]
  have he : e + 52 - 52 = e := by omega
  rw [he, hr]

/-- Rounding keeps a number that is not negative from becoming negative. -/
theorem round64_nonneg (x : ℚ) (h : 0 ≤ x) : 0 ≤ round64 x := by
  unfold round64
  split_ifs with hx
  · exact le_refl 0
  · have hp : (0 : ℚ) < 2 ^ (Int.log 2 |x| - 52) := zpow_pos (by norm_num) _
    have hy : 0 ≤ x / 2 ^ (Int.log 2 |x| - 52) := div_nonneg h (le_of_lt hp)
    have hr : (0 : ℚ) ≤ (roundHalfEven (x / 2 ^ (Int.log 2 |x| - 52)) : ℚ) := by
      exact_mod_cast roundHalfEven_nonneg _ hy
    exact mul_nonneg hr (le_of_lt hp)

/-- The sum `1 + x` of exact arithmetic is not negative when `x` is not. -/
theorem exactOps_add_nonneg (x : ℚ) (h : 0 ≤ x) : 0 ≤ exactOps.add 1 x := by
  show (0 : ℚ) ≤ 1 + x
  linarith

/-- The `float64` sum `1 + x` is not negative when `x` is not. -/
theorem binary64_add_nonneg (x : ℚ) (h : 0 ≤ x) : 0 ≤ binary64.add 1 x := by
  show 0 ≤ round64 (1 + x)
  exact round64_nonneg _ (by linarith)

/-- In `float64`, 1.0 + 0.001 is 1.001. -/
theorem f64_1 : binary64.add 1 (dbl 1152921504606847 60) = dbl 2254051613498933 51 := by
  show round64 (1 + (dbl 1152921504606847 60)) = _
  rw [round64_eq_pos _ (-52) 4508103226997866 (by norm_num [dbl]) (by norm_num [dbl])
    (roundHalfEven_eq _ _ (by norm_num [dbl]) (by norm_num [dbl]))]
  norm_num [dbl]

/-- In `float64`, 0.05 * 0.0002 is 1e-05. -/
theorem f64_2 :
    binary64.mul (dbl 3602879701896397 56) (dbl 7378697629483821 65) = dbl 5902958103587057 69 := by
  show round64 ((dbl 3602879701896397 56) * (dbl 7378697629483821 65)) = _
  rw [round64_eq_pos _ (-69) 5902958103587057 (by norm_num [dbl]) (by norm_num [dbl])
    (roundHalfEven_eq _ _ (by norm_num [dbl]) (by norm_num [dbl]))]
  norm_num [dbl]

/-- In `float64`, 1.004e-05 / 1e-05 is 1.004. -/
theorem f64_3 :
    binary64.div (dbl 5926569936001405 69) (dbl 5902958103587057 69) = dbl 2260807012939989 51 := by
  show round64 ((dbl 5926569936001405 69) / (dbl 5902958103587057 69)) = _
  rw [round64_eq_pos _ (-52) 4521614025879978 (by norm_num [dbl]) (by norm_num [dbl])
    (roundHalfEven_eq _ _ (by norm_num [dbl]) (by norm_num [dbl]))]
  norm_num [dbl]

/-- In `float64`, 0.1 * 3.0 is 0.30000000000000004. -/
theorem f64_4 : binary64.mul (dbl 3602879701896397 55) 3 = dbl 1351079888211149 52 := by
  show round64 ((dbl 3602879701896397 55) * 3) = _
  rw [round64_eq_pos _ (-54) 5404319552844596 (by norm_num [dbl]) (by norm_num [dbl])
    (by rw [roundHalfEven_tie _ 5404319552844595 (by norm_num [dbl])]; decide)]
  norm_num [dbl]

/-- In `float64`, 0.30000000000000004 / 100.0 is 0.0030000000000000005. -/
theorem f64_5 : binary64.div (dbl 1351079888211149 52) 100 = dbl 6917529027641083 61 := by
  show round64 ((dbl 1351079888211149 52) / 100) = _
  rw [round64_eq_pos _ (-61) 6917529027641083 (by norm_num [dbl]) (by norm_num [dbl])
    (roundHalfEven_eq _ _ (by norm_num [dbl]) (by norm_num [dbl]))]
  norm_num [dbl]

/-- In `float64`, 1.004 - 0.0030000000000000005 is 1.0010000000000001. -/
theorem f64_6 :
    binary64.sub (dbl 2260807012939989 51) (dbl 6917529027641083 61) = dbl 4508103226997867 52 := by
  show round64 ((dbl 2260807012939989 51) - (dbl 6917529027641083 61)) = _
  rw [round64_eq_pos _ (-52) 4508103226997867 (by norm_num [dbl]) (by norm_num [dbl])
    (roundHalfEven_eq _ _ (by norm_num [dbl]) (by norm_num [dbl]))]
  norm_num [dbl]

/-- In `float64`, 1.0010000000000001 - 1.0 is 0.001000000000000112. -/
theorem f64_7 : binary64.sub (dbl 4508103226997867 52) 1 = dbl 4503599627371 52 := by
  show round64 ((dbl 4508103226997867 52) - 1) = _
  rw [round64_eq_pos _ (-62) 4611686018427904 (by norm_num [dbl]) (by norm_num [dbl])
    (roundHalfEven_eq _ _ (by norm_num [dbl]) (by norm_num [dbl]))]
  norm_num [dbl]

/-- In `float64`, 0.001000000000000112 * 100.0 is 0.10000000000001119. -/
theorem f64_8 : binary64.mul (dbl 4503599627371 52) 100 = dbl 112589990684275 50 := by
  show round64 ((dbl 4503599627371 52) * 100) = _
  rw [round64_eq_pos _ (-56) 7205759403793600 (by norm_num [dbl]) (by norm_num [dbl])
    (roundHalfEven_eq _ _ (by norm_num [dbl]) (by norm_num [dbl]))]
  norm_num [dbl]

/-- In `float64`, 1e-05 / 1e-05 is 1.0. -/
theorem f64_9 : binary64.div (dbl 5902958103587057 69) (dbl 5902958103587057 69) = 1 := by
  show round64 ((dbl 5902958103587057 69) / (dbl 5902958103587057 69)) = _
  rw [round64_eq_pos _ (-52) 4503599627370496 (by norm_num [dbl]) (by norm_num [dbl])
    (roundHalfEven_eq _ _ (by norm_num [dbl]) (by norm_num [dbl]))]
  norm_num [dbl]

/-- In `float64`, 1.0 - 0.0030000000000000005 is 0.997. -/
theorem f64_10 : binary64.sub 1 (dbl 6917529027641083 61) = dbl 8980177656976769 53 := by
  show round64 (1 - (dbl 6917529027641083 61)) = _
  rw [round64_eq_pos _ (-53) 8980177656976769 (by norm_num [dbl]) (by norm_num [dbl])
    (roundHalfEven_eq _ _ (by norm_num [dbl]) (by norm_num [dbl]))]
  norm_num [dbl]

/-- In `float64`, 2.0 - 1.0 is 1.0. -/
theorem f64_11 : binary64.sub 2 1 = 1 := by
  show round64 (2 - 1) = _
  rw [round64_eq_pos _ (-52) 4503599627370496 (by norm_num [dbl]) (by norm_num [dbl])
    (roundHalfEven_eq _ _ (by norm_num [dbl]) (by norm_num [dbl]))]
  norm_num [dbl]

/-- In `float64`, 0.1 / 100.0 is 0.001. -/
theorem f64_12 : binary64.div (dbl 3602879701896397 55) 100 = dbl 1152921504606847 60 := by
  show round64 ((dbl 3602879701896397 55) / 100) = _
  rw [round64_eq_pos _ (-62) 4611686018427388 (by norm_num [dbl]) (by norm_num [dbl])
    (roundHalfEven_eq _ _ (by norm_num [dbl]) (by norm_num [dbl]))]
  norm_num [dbl]

/-- In `float64`, 1.5 * 1.001 is 1.5014999999999998. -/
theorem f64_13 : binary64.mul (dbl 3 1) (dbl 2254051613498933 51) = dbl 6762154840496799 52 := by
  show round64 ((dbl 3 1) * (dbl 2254051613498933 51)) = _
  rw [round64_eq_pos _ (-52) 6762154840496799 (by norm_num [dbl]) (by norm_num [dbl])
    (roundHalfEven_eq _ _ (by norm_num [dbl]) (by norm_num [dbl]))]
  norm_num [dbl]

/-- In `float64`, 2500.0 * 1.001 is 2502.4999999999995. -/
theorem f64_14 : binary64.mul 2500 (dbl 2254051613498933 51) = dbl 5503055697018879 41 := by
  show round64 (2500 * (dbl 2254051613498933 51)) = _
  rw [round64_eq_pos _ (-41) 5503055697018879 (by norm_num [dbl]) (by norm_num [dbl])
    (roundHalfEven_eq _ _ (by norm_num [dbl]) (by norm_num [dbl]))]
  norm_num [dbl]

/-- The `float64` values of the decimal literals 0.05, 0.0002, 0.00001,
0.00001004, 0.1, 0.001 and 0.997, as `strconv.ParseFloat` returns them. -/
theorem float64_literals :
    round64 (1 / 20) = dbl 3602879701896397 56 ∧
    round64 (1 / 5000) = dbl 7378697629483821 65 ∧
    round64 (1 / 100000) = dbl 5902958103587057 69 ∧
    round64 (251 / 25000000) = dbl 5926569936001405 69 ∧
    round64 (1 / 10) = dbl 3602879701896397 55 ∧
    round64 (1 / 1000) = dbl 1152921504606847 60 ∧
    round64 (997 / 1000) = dbl 8980177656976769 53 := by
  refine ⟨?_, ?_, ?_, ?_, ?_, ?_, ?_⟩
  · rw [round64_eq_pos _ (-57) 7205759403792794 (by norm_num) (by norm_num)
      (roundHalfEven_eq _ _ (by norm_num) (by norm_num))]
    norm_num [dbl]
  · rw [round64_eq_pos _ (-65) 7378697629483821 (by norm_num) (by norm_num)
      (roundHalfEven_eq _ _ (by norm_num) (by norm_num))]
    norm_num [dbl]
  · rw [round64_eq_pos _ (-69) 5902958103587057 (by norm_num) (by norm_num)
      (roundHalfEven_eq _ _ (by norm_num) (by norm_num))]
    norm_num [dbl]
  · rw [round64_eq_pos _ (-69) 5926569936001405 (by norm_num) (by norm_num)
      (roundHalfEven_eq _ _ (by norm_num) (by norm_num))]
    norm_num [dbl]
  · rw [round64_eq_pos _ (-56) 7205759403792794 (by norm_num) (by norm_num)
      (roundHalfEven_eq _ _ (by norm_num) (by norm_num))]
    norm_num [dbl]
  · rw [round64_eq_pos _ (-62) 4611686018427388 (by norm_num) (by norm_num)
      (roundHalfEven_eq _ _ (by norm_num) (by norm_num))]
    norm_num [dbl]
  · rw [round64_eq_pos _ (-53) 8980177656976769 (by norm_num) (by norm_num)
      (roundHalfEven_eq _ _ (by norm_num) (by norm_num))]
    norm_num [dbl]

/-- The rendering of a value that is not negative, from its rounded digits. -/
theorem fixedPoint_eq (x : ℚ) (prec n : Int) (p : Nat) (hp : prec.toNat = p) (hx : ¬ x < 0)
    (hr : roundHalfEven (x * 10 ^ p) = n) :
    fixedPoint x prec = renderFixed n.toNat p := by
  simp [fixedPoint, hx, hr, hp]

/-- C3: in exact arithmetic, for nonzero `a` and `b`, `arbitrage_formula` is
`c/(a·b) − 3·fee/100` for "BBS" and `2 − c/(a·b) − 3·fee/100` for "SSB"; at
`fee = 0` these are `c/(a·b)` and `2 − c/(a·b)`; and equal inputs give equal
outputs. -/
theorem arbitrage_formula_exact (a b c fee : ℚ) (ha : a ≠ 0) (hb : b ≠ 0) :
    arbitrage_formula exactOps a b c fee "BBS" = c / (a * b) - 3 * fee / 100 ∧
    arbitrage_formula exactOps a b c fee "SSB" = 2 - c / (a * b) - 3 * fee / 100 ∧
    arbitrage_formula exactOps a b c 0 "BBS" = c / (a * b) ∧
    arbitrage_formula exactOps a b c 0 "SSB" = 2 - c / (a * b) ∧
    (∀ (a1 b1 c1 fee1 : ℚ) (s s1 : String), a1 = a → b1 = b → c1 = c → fee1 = fee → s1 = s →
      arbitrage_formula exactOps a1 b1 c1 fee1 s1 = arbitrage_formula exactOps a b c fee s) := by
  have _ := ha
  have _ := hb
  refine ⟨?_, ?_, ?_, ?_, ?_⟩
  · simp only [arbitrage_formula, exactOps, if_true]; ring
  · have h : ¬ ("SSB" = "BBS") := by decide
    simp only [arbitrage_formula, exactOps, if_neg h, if_true]; ring
  · simp [arbitrage_formula, exactOps]
  · have h : ¬ ("SSB" = "BBS") := by decide
    simp [arbitrage_formula, exactOps, h]
  · intro a1 b1 c1 fee1 s s1 h1 h2 h3 h4 h5
    rw [h1, h2, h3, h4, h5]

theorem arbitrage_formula_exact_witness :
    arbitrage_formula exactOps (1 / 20) (1 / 5000) (100503 / 10000000000) (1 / 10) "BBS"
        = (100503 / 10000000000) / ((1 / 20) * (1 / 5000)) - 3 * (1 / 10) / 100 ∧
    arbitrage_formula exactOps (1 / 20) (1 / 5000) (100503 / 10000000000) (1 / 10) "SSB"
        = 2 - (100503 / 10000000000) / ((1 / 20) * (1 / 5000)) - 3 * (1 / 10) / 100 :=
  ⟨(arbitrage_formula_exact (1 / 20) (1 / 5000) (100503 / 10000000000) (1 / 10)
      (by norm_num) (by norm_num)).1,
   (arbitrage_formula_exact (1 / 20) (1 / 5000) (100503 / 10000000000) (1 / 10)
      (by norm_num) (by norm_num)).2.1⟩

/-- C4: a "BBS" execution whose three `PlaceOrder` calls succeed, with `r1`
and `r2` returned for legs 1 and 2, makes exactly the calls
(initial, BUY, open, fmt lot initial.price_precision),
(middle, BUY, open, fmt r1 middle.price_precision),
(final, SELL, close, fmt r2 middle.base_precision), in this order, and
returns no error. -/
theorem bbs_success_calls {σ : Type} (P : PrivateClient σ) (fmt : ℚ → Int → String)
    (F : FloatOps)
    (ex : Executor σ) (triangle : Triangle) (lot : ℚ) (c1 c2 c3 : σ) (r1 r2 r3 : ℚ)
    (h1 : P.PlaceOrder ex.Client triangle.Initial.GetSymbol "BUY" "open"
      (fmt lot triangle.Initial.GetPricePrecision) = (c1, r1, none))
    (h2 : P.PlaceOrder c1 triangle.Middle.GetSymbol "BUY" "open"
      (fmt r1 triangle.Middle.GetPricePrecision) = (c2, r2, none))
    (h3 : P.PlaceOrder c2 triangle.Final.GetSymbol "SELL" "close"
      (fmt r2 triangle.Middle.GetBasePrecision) = (c3, r3, none)) :
    calls (ExecuteTriangle P fmt F ex triangle "BBS" lot).1.trace =
      [⟨triangle.Initial.GetSymbol, "BUY", "open", fmt lot triangle.Initial.GetPricePrecision⟩,
       ⟨triangle.Middle.GetSymbol, "BUY", "open", fmt r1 triangle.Middle.GetPricePrecision⟩,
       ⟨triangle.Final.GetSymbol, "SELL", "close", fmt r2 triangle.Middle.GetBasePrecision⟩] ∧
    (ExecuteTriangle P fmt F ex triangle "BBS" lot).2 = none := by
  simp [ExecuteTriangle, ExecuteTriangle.body, Run.PlaceOrder, Run.Lock, Run.Unlock,
    h1, h2, h3, calls]

theorem bbs_success_calls_witness :
    calls (ExecuteTriangle scripted showQ exactOps
        (exec0 [(1 / 2, none), (2500, none), (1 / 40, none)]) tri "BBS" 1).1.trace =
      [⟨tri.Initial.GetSymbol, "BUY", "open", showQ 1 tri.Initial.GetPricePrecision⟩,
       ⟨tri.Middle.GetSymbol, "BUY", "open", showQ (1 / 2) tri.Middle.GetPricePrecision⟩,
       ⟨tri.Final.GetSymbol, "SELL", "close", showQ 2500 tri.Middle.GetBasePrecision⟩] ∧
    (ExecuteTriangle scripted showQ exactOps
        (exec0 [(1 / 2, none), (2500, none), (1 / 40, none)]) tri "BBS" 1).2 = none :=
  bbs_success_calls scripted showQ exactOps
    (exec0 [(1 / 2, none), (2500, none), (1 / 40, none)]) tri 1
    [(2500, none), (1 / 40, none)] [(1 / 40, none)] [] (1 / 2) 2500 (1 / 40) rfl rfl rfl

/-- C5: a "BBS" execution whose leg 1 succeeds with `r1` and whose leg 2
returns the error `e` makes exactly three `PlaceOrder` calls: leg 1, leg 2 and
the compensating order (initial, SELL, close, fmt r1 middle.price_precision);
every call is on the initial or the middle symbol, so leg 3 is not attempted;
and it returns `e`, whatever the compensating order returns. -/
theorem bbs_leg2_failure {σ : Type} (P : PrivateClient σ) (fmt : ℚ → Int → String)
    (F : FloatOps)
    (ex : Executor σ) (triangle : Triangle) (lot : ℚ) (c1 c2 : σ) (r1 r2 : ℚ) (e : Error)
    (h1 : P.PlaceOrder ex.Client triangle.Initial.GetSymbol "BUY" "open"
      (fmt lot triangle.Initial.GetPricePrecision) = (c1, r1, none))
    (h2 : P.PlaceOrder c1 triangle.Middle.GetSymbol "BUY" "open"
      (fmt r1 triangle.Middle.GetPricePrecision) = (c2, r2, some e)) :
    calls (ExecuteTriangle P fmt F ex triangle "BBS" lot).1.trace =
      [⟨triangle.Initial.GetSymbol, "BUY", "open", fmt lot triangle.Initial.GetPricePrecision⟩,
       ⟨triangle.Middle.GetSymbol, "BUY", "open", fmt r1 triangle.Middle.GetPricePrecision⟩,
       ⟨triangle.Initial.GetSymbol, "SELL", "close",
         fmt r1 triangle.Middle.GetPricePrecision⟩] ∧
    (∀ o ∈ calls (ExecuteTriangle P fmt F ex triangle "BBS" lot).1.trace,
      o.symbol = triangle.Initial.GetSymbol ∨ o.symbol = triangle.Middle.GetSymbol) ∧
    (ExecuteTriangle P fmt F ex triangle "BBS" lot).2 = some e := by
  simp [ExecuteTriangle, ExecuteTriangle.body, Run.PlaceOrder, Run.Lock, Run.Unlock,
    h1, h2, calls]

theorem bbs_leg2_failure_witness :
    calls (ExecuteTriangle scripted showQ exactOps
        (exec0 [(1 / 2, none), (0, some "venue error")]) tri "BBS" 1).1.trace =
      [⟨tri.Initial.GetSymbol, "BUY", "open", showQ 1 tri.Initial.GetPricePrecision⟩,
       ⟨tri.Middle.GetSymbol, "BUY", "open", showQ (1 / 2) tri.Middle.GetPricePrecision⟩,
       ⟨tri.Initial.GetSymbol, "SELL", "close", showQ (1 / 2) tri.Middle.GetPricePrecision⟩] ∧
    (ExecuteTriangle scripted showQ exactOps
        (exec0 [(1 / 2, none), (0, some "venue error")]) tri "BBS" 1).2 = some "venue error" :=
  ⟨(bbs_leg2_failure scripted showQ exactOps
      (exec0 [(1 / 2, none), (0, some "venue error")]) tri 1
      [(0, some "venue error")] [] (1 / 2) 0 "venue error" rfl rfl).1,
   (bbs_leg2_failure scripted showQ exactOps
      (exec0 [(1 / 2, none), (0, some "venue error")]) tri 1
      [(0, some "venue error")] [] (1 / 2) 0 "venue error" rfl rfl).2.2⟩

/-- C6: a "BBS" execution whose legs 1 and 2 succeed with `r1`, `r2` and whose
leg 3 returns the error `e` makes, after the three legs, exactly two
compensating calls: (middle, SELL, close, fmt r2 middle.base_precision) and
then (initial, SELL, close, fmt r1 middle.price_precision); it returns `e`,
whatever the compensating orders return. -/
theorem bbs_leg3_failure {σ : Type} (P : PrivateClient σ) (fmt : ℚ → Int → String)
    (F : FloatOps)
    (ex : Executor σ) (triangle : Triangle) (lot : ℚ) (c1 c2 c3 : σ) (r1 r2 r3 : ℚ)
    (e : Error)
    (h1 : P.PlaceOrder ex.Client triangle.Initial.GetSymbol "BUY" "open"
      (fmt lot triangle.Initial.GetPricePrecision) = (c1, r1, none))
    (h2 : P.PlaceOrder c1 triangle.Middle.GetSymbol "BUY" "open"
      (fmt r1 triangle.Middle.GetPricePrecision) = (c2, r2, none))
    (h3 : P.PlaceOrder c2 triangle.Final.GetSymbol "SELL" "close"
      (fmt r2 triangle.Middle.GetBasePrecision) = (c3, r3, some e)) :
    calls (ExecuteTriangle P fmt F ex triangle "BBS" lot).1.trace =
      [⟨triangle.Initial.GetSymbol, "BUY", "open", fmt lot triangle.Initial.GetPricePrecision⟩,
       ⟨triangle.Middle.GetSymbol, "BUY", "open", fmt r1 triangle.Middle.GetPricePrecision⟩,
       ⟨triangle.Final.GetSymbol, "SELL", "close", fmt r2 triangle.Middle.GetBasePrecision⟩,
       ⟨triangle.Middle.GetSymbol, "SELL", "close", fmt r2 triangle.Middle.GetBasePrecision⟩,
       ⟨triangle.Initial.GetSymbol, "SELL", "close",
         fmt r1 triangle.Middle.GetPricePrecision⟩] ∧
    (ExecuteTriangle P fmt F ex triangle "BBS" lot).2 = some e := by
  simp [ExecuteTriangle, ExecuteTriangle.body, Run.PlaceOrder, Run.Lock, Run.Unlock,
    h1, h2, h3, calls]

theorem bbs_leg3_failure_witness :
    calls (ExecuteTriangle scripted showQ exactOps
        (exec0 [(1 / 2, none), (2500, none), (0, some "rejected")]) tri "BBS" 1).1.trace =
      [⟨tri.Initial.GetSymbol, "BUY", "open", showQ 1 tri.Initial.GetPricePrecision⟩,
       ⟨tri.Middle.GetSymbol, "BUY", "open", showQ (1 / 2) tri.Middle.GetPricePrecision⟩,
       ⟨tri.Final.GetSymbol, "SELL", "close", showQ 2500 tri.Middle.GetBasePrecision⟩,
       ⟨tri.Middle.GetSymbol, "SELL", "close", showQ 2500 tri.Middle.GetBasePrecision⟩,
       ⟨tri.Initial.GetSymbol, "SELL", "close", showQ (1 / 2) tri.Middle.GetPricePrecision⟩] ∧
    (ExecuteTriangle scripted showQ exactOps
        (exec0 [(1 / 2, none), (2500, none), (0, some "rejected")]) tri "BBS" 1).2
      = some "rejected" :=
  bbs_leg3_failure scripted showQ exactOps
    (exec0 [(1 / 2, none), (2500, none), (0, some "rejected")])
    tri 1 [(2500, none), (0, some "rejected")] [(0, some "rejected")] [] (1 / 2) 2500 0
    "rejected" rfl rfl rfl

/-- C7, as stated, fails: for a direction string other than "BBS" and "SSB"
`ExecuteTriangle` returns no error although it has placed no order. -/
theorem no_partial_success_counterexample :
    ¬ ((ExecuteTriangle scripted showQ exactOps (exec0 []) tri "SBS" 1).2 = none →
        (calls (ExecuteTriangle scripted showQ exactOps (exec0 []) tri "SBS" 1).1.trace).length
          = 3) := by
  simp [ExecuteTriangle, ExecuteTriangle.body, calls]

/-- C7, amended: for the directions "BBS" and "SSB", every triangle, lot and
behaviour of the client: if `ExecuteTriangle` returns no error then exactly
three `PlaceOrder` calls were made, on the initial, middle and final symbol in
this order, and none of them returned an error; and if some `PlaceOrder` call
returned an error then `ExecuteTriangle` returns an error. -/
theorem no_partial_success {σ : Type} (P : PrivateClient σ) (fmt : ℚ → Int → String)
    (F : FloatOps)
    (ex : Executor σ) (triangle : Triangle) (sequence : String) (lot : ℚ)
    (hseq : sequence = "BBS" ∨ sequence = "SSB") :
    ((ExecuteTriangle P fmt F ex triangle sequence lot).2 = none →
      (calls (ExecuteTriangle P fmt F ex triangle sequence lot).1.trace).map Order.symbol =
        [triangle.Initial.GetSymbol, triangle.Middle.GetSymbol, triangle.Final.GetSymbol] ∧
      failures (ExecuteTriangle P fmt F ex triangle sequence lot).1.trace = []) ∧
    (failures (ExecuteTriangle P fmt F ex triangle sequence lot).1.trace ≠ [] →
      (ExecuteTriangle P fmt F ex triangle sequence lot).2 ≠ none) := by
  have hne : ¬ ("SSB" = "BBS") := by decide
  rcases hseq with rfl | rfl
  · rcases h1 : P.PlaceOrder ex.Client triangle.Initial.GetSymbol "BUY" "open"
      (fmt lot triangle.Initial.GetPricePrecision) with ⟨c1, r1, _ | e1⟩
    · rcases h2 : P.PlaceOrder c1 triangle.Middle.GetSymbol "BUY" "open"
        (fmt r1 triangle.Middle.GetPricePrecision) with ⟨c2, r2, _ | e2⟩
      · rcases h3 : P.PlaceOrder c2 triangle.Final.GetSymbol "SELL" "close"
          (fmt r2 triangle.Middle.GetBasePrecision) with ⟨c3, r3, _ | e3⟩
        · simp [ExecuteTriangle, ExecuteTriangle.body, Run.PlaceOrder, Run.Lock, Run.Unlock,
            h1, h2, h3, calls, failures]
        · simp [ExecuteTriangle, ExecuteTriangle.body, Run.PlaceOrder, Run.Lock, Run.Unlock,
            h1, h2, h3, calls, failures]
      · simp [ExecuteTriangle, ExecuteTriangle.body, Run.PlaceOrder, Run.Lock, Run.Unlock,
          h1, h2, calls, failures]
    · simp [ExecuteTriangle, ExecuteTriangle.body, Run.PlaceOrder, Run.Lock, Run.Unlock,
        h1, calls, failures]
  · rcases h1 : P.PlaceOrder ex.Client triangle.Initial.GetSymbol "SELL" "open"
      (fmt lot triangle.Initial.GetPricePrecision) with ⟨c1, r1, _ | e1⟩
    · rcases h2 : P.PlaceOrder c1 triangle.Middle.GetSymbol "SELL" "open"
        (fmt (F.mul r1 (F.add 1 (F.div ex.Fee 100))) triangle.Middle.GetPricePrecision)
        with ⟨c2, r2, _ | e2⟩
      · rcases h3 : P.PlaceOrder c2 triangle.Final.GetSymbol "BUY" "close"
          (fmt (F.mul r2 (F.add 1 (F.div ex.Fee 100))) triangle.Middle.GetBasePrecision)
          with ⟨c3, r3, _ | e3⟩
        · simp [ExecuteTriangle, ExecuteTriangle.body, Run.PlaceOrder, Run.Lock, Run.Unlock,
            h1, h2, h3, calls, failures, hne]
        · simp [ExecuteTriangle, ExecuteTriangle.body, Run.PlaceOrder, Run.Lock, Run.Unlock,
            h1, h2, h3, calls, failures, hne]
      · simp [ExecuteTriangle, ExecuteTriangle.body, Run.PlaceOrder, Run.Lock, Run.Unlock,
          h1, h2, calls, failures, hne]
    · simp [ExecuteTriangle, ExecuteTriangle.body, Run.PlaceOrder, Run.Lock, Run.Unlock,
        h1, calls, failures, hne]

theorem no_partial_success_witness :
    ("BBS" = "BBS" ∨ "BBS" = "SSB") ∧
    ((ExecuteTriangle scripted showQ exactOps
        (exec0 [(1 / 2, none), (2500, none), (1 / 40, none)]) tri "BBS" 1).2 = none →
      (calls (ExecuteTriangle scripted showQ exactOps
        (exec0 [(1 / 2, none), (2500, none), (1 / 40, none)]) tri "BBS" 1).1.trace).map
          Order.symbol =
        [tri.Initial.GetSymbol, tri.Middle.GetSymbol, tri.Final.GetSymbol] ∧
      failures (ExecuteTriangle scripted showQ exactOps
        (exec0 [(1 / 2, none), (2500, none), (1 / 40, none)]) tri "BBS" 1).1.trace = []) :=
  ⟨Or.inl rfl,
   (no_partial_success scripted showQ exactOps (exec0 [(1 / 2, none), (2500, none), (1 / 40, none)])
      tri "BBS" 1 (Or.inl rfl)).1⟩

/-- C8 fails on the code: in a "BBS" execution whose leg 2 is rejected, the
compensating order on the initial symbol is placed after `Unlock`, with no
`Lock` before it. -/
theorem rollback_outside_lock :
    (ExecuteTriangle scripted showQ exactOps
        (exec0 [(1 / 2, none), (0, some "venue error")]) tri "BBS" 1).1.trace =
      [Event.lock,
       Event.placeOrder ⟨"ETHBTC", "BUY", "open", showQ 1 6⟩ 1 (1 / 2) none,
       Event.unlock,
       Event.lock,
       Event.placeOrder ⟨"XRPETH", "BUY", "open", showQ (1 / 2) 5⟩ 1 0 (some "venue error"),
       Event.unlock,
       Event.placeOrder ⟨"ETHBTC", "SELL", "close", showQ (1 / 2) 5⟩ 1 0
         (some "script exhausted")] ∧
    underLock false (ExecuteTriangle scripted showQ exactOps
        (exec0 [(1 / 2, none), (0, some "venue error")]) tri "BBS" 1).1.trace = false := by
  simp [ExecuteTriangle, ExecuteTriangle.body, Run.PlaceOrder, Run.Lock, Run.Unlock,
    scripted, exec0, tri, underLock, MarketSymbol.GetSymbol, MarketSymbol.GetPricePrecision,
    wrapInt]

/-- In the range of a Go `int` nothing wraps. -/
theorem wrapInt_of_range (x : Int) (h1 : -9223372036854775808 ≤ x)
    (h2 : x < 9223372036854775808) : wrapInt x = x := by
  unfold wrapInt
  omega

/-- An increment followed by a decrement gives back every Go `int`. -/
theorem wrapInt_inc_dec (x : Int) (h1 : -9223372036854775808 ≤ x)
    (h2 : x < 9223372036854775808) : wrapInt (wrapInt (x + 1) - 1) = x := by
  unfold wrapInt
  omega

/-- The counter of one call of `ExecuteTriangle`, run from entry to return:
every `PlaceOrder` sees the incremented entry value, and the call returns with
that value decremented. -/
theorem ExecuteTriangle_counter {σ : Type} (P : PrivateClient σ) (fmt : ℚ → Int → String)
    (F : FloatOps) (ex : Executor σ) (triangle : Triangle) (sequence : String) (lot : ℚ) :
    (ExecuteTriangle P fmt F ex triangle sequence lot).1.ex.Counter =
      wrapInt (wrapInt (ex.Counter + 1) - 1) ∧
    (∀ k ∈ counters (ExecuteTriangle P fmt F ex triangle sequence lot).1.trace,
      k = wrapInt (ex.Counter + 1)) := by
  have hne : ¬ ("SSB" = "BBS") := by decide
  by_cases hb : sequence = "BBS"
  · subst hb
    rcases h1 : P.PlaceOrder ex.Client triangle.Initial.GetSymbol "BUY" "open"
      (fmt lot triangle.Initial.GetPricePrecision) with ⟨c1, r1, _ | e1⟩
    · rcases h2 : P.PlaceOrder c1 triangle.Middle.GetSymbol "BUY" "open"
        (fmt r1 triangle.Middle.GetPricePrecision) with ⟨c2, r2, _ | e2⟩
      · rcases h3 : P.PlaceOrder c2 triangle.Final.GetSymbol "SELL" "close"
          (fmt r2 triangle.Middle.GetBasePrecision) with ⟨c3, r3, _ | e3⟩
        · simp [ExecuteTriangle, ExecuteTriangle.body, Run.PlaceOrder, Run.Lock, Run.Unlock,
            h1, h2, h3, counters]
        · simp [ExecuteTriangle, ExecuteTriangle.body, Run.PlaceOrder, Run.Lock, Run.Unlock,
            h1, h2, h3, counters]
      · simp [ExecuteTriangle, ExecuteTriangle.body, Run.PlaceOrder, Run.Lock, Run.Unlock,
          h1, h2, counters]
    · simp [ExecuteTriangle, ExecuteTriangle.body, Run.PlaceOrder, Run.Lock, Run.Unlock,
        h1, counters]
  · by_cases hs : sequence = "SSB"
    · subst hs
      rcases h1 : P.PlaceOrder ex.Client triangle.Initial.GetSymbol "SELL" "open"
        (fmt lot triangle.Initial.GetPricePrecision) with ⟨c1, r1, _ | e1⟩
      · rcases h2 : P.PlaceOrder c1 triangle.Middle.GetSymbol "SELL" "open"
          (fmt (F.mul r1 (F.add 1 (F.div ex.Fee 100))) triangle.Middle.GetPricePrecision)
          with ⟨c2, r2, _ | e2⟩
        · rcases h3 : P.PlaceOrder c2 triangle.Final.GetSymbol "BUY" "close"
            (fmt (F.mul r2 (F.add 1 (F.div ex.Fee 100))) triangle.Middle.GetBasePrecision)
            with ⟨c3, r3, _ | e3⟩
          · simp [ExecuteTriangle, ExecuteTriangle.body, Run.PlaceOrder, Run.Lock,
              Run.Unlock, h1, h2, h3, counters, hne]
          · simp [ExecuteTriangle, ExecuteTriangle.body, Run.PlaceOrder, Run.Lock,
              Run.Unlock, h1, h2, h3, counters, hne]
        · simp [ExecuteTriangle, ExecuteTriangle.body, Run.PlaceOrder, Run.Lock, Run.Unlock,
            h1, h2, counters, hne]
      · simp [ExecuteTriangle, ExecuteTriangle.body, Run.PlaceOrder, Run.Lock, Run.Unlock,
          h1, counters, hne]
    · simp [ExecuteTriangle, ExecuteTriangle.body, hb, hs, counters]

/-- C9, as stated, fails in two ways. A call entered with the counter at the
largest `int`, 9223372036854775807, sees the counter at -9223372036854775808
at its three `PlaceOrder` calls, not at the entry value plus one. And of two
calls on the shared executor, both entered before the first places an order,
the first is entered at 0 and sees the counter at 2 at its three `PlaceOrder`
calls. -/
theorem counter_not_entry_plus_one :
    counters (ExecuteTriangle scripted showQ exactOps
        { Client := [(1 / 2, none), (2500, none), (1 / 40, none)],
          Counter := 9223372036854775807, Fee := 1 / 10 } tri "BBS" 1).1.trace =
      [-9223372036854775808, -9223372036854775808, -9223372036854775808] ∧
    ¬ (∀ k ∈ counters (ExecuteTriangle scripted showQ exactOps
        { Client := [(1 / 2, none), (2500, none), (1 / 40, none)],
          Counter := 9223372036854775807, Fee := 1 / 10 } tri "BBS" 1).1.trace,
        k = 9223372036854775807 + 1) ∧
    ((Shared.mk 0 (Call.start 3) (Call.start 3)).run
        [true, true, false, false, true, true, true]).first.entry = some 0 ∧
    ((Shared.mk 0 (Call.start 3) (Call.start 3)).run
        [true, true, false, false, true, true, true]).first.seen = [2, 2, 2] := by
  refine ⟨?_, ?_, ?_, ?_⟩
  · simp [ExecuteTriangle, ExecuteTriangle.body, Run.PlaceOrder, Run.Lock, Run.Unlock,
      scripted, counters, wrapInt]
  · simp [ExecuteTriangle, ExecuteTriangle.body, Run.PlaceOrder, Run.Lock, Run.Unlock,
      scripted, counters, wrapInt]
  · decide
  · decide

/-- C9, amended: for every direction string, lot and behaviour of the client,
a call of `ExecuteTriangle` run from entry to return with no other call in
between returns with the counter at its entry value; if the entry value is
below the largest `int`, the counter is the entry value plus one at every
`PlaceOrder` call (legs and compensating orders); so from entry value 0 it is 0
on return and never negative at a `PlaceOrder`. -/
theorem counter_restored {σ : Type} (P : PrivateClient σ) (fmt : ℚ → Int → String)
    (F : FloatOps) (ex : Executor σ) (triangle : Triangle) (sequence : String) (lot : ℚ)
    (hlo : -9223372036854775808 ≤ ex.Counter) (hhi : ex.Counter ≤ 9223372036854775807) :
    (ExecuteTriangle P fmt F ex triangle sequence lot).1.ex.Counter = ex.Counter ∧
    (ex.Counter < 9223372036854775807 →
      ∀ k ∈ counters (ExecuteTriangle P fmt F ex triangle sequence lot).1.trace,
        k = ex.Counter + 1) ∧
    (ex.Counter = 0 →
      (ExecuteTriangle P fmt F ex triangle sequence lot).1.ex.Counter = 0 ∧
      ∀ k ∈ counters (ExecuteTriangle P fmt F ex triangle sequence lot).1.trace, 0 ≤ k) := by
  have key := ExecuteTriangle_counter P fmt F ex triangle sequence lot
  have hret : (ExecuteTriangle P fmt F ex triangle sequence lot).1.ex.Counter = ex.Counter := by
    rw [key.1]
    exact wrapInt_inc_dec _ hlo (by omega)
  refine ⟨hret, fun hlt k hk => ?_, fun h0 => ⟨by rw [hret, h0], fun k hk => ?_⟩⟩
  · rw [key.2 k hk]
    exact wrapInt_of_range _ (by omega) (by omega)
  · rw [key.2 k hk, wrapInt_of_range _ (by omega) (by omega)]
    omega

theorem counter_restored_witness :
    (ExecuteTriangle scripted showQ exactOps
        (exec0 [(1 / 2, none), (0, some "venue error")]) tri "BBS" 1).1.ex.Counter = 0 ∧
    counters (ExecuteTriangle scripted showQ exactOps
        (exec0 [(1 / 2, none), (0, some "venue error")]) tri "BBS" 1).1.trace = [1, 1, 1] ∧
    ∀ k ∈ counters (ExecuteTriangle scripted showQ exactOps
        (exec0 [(1 / 2, none), (0, some "venue error")]) tri "BBS" 1).1.trace, 0 ≤ k :=
  ⟨(counter_restored scripted showQ exactOps (exec0 [(1 / 2, none), (0, some "venue error")])
      tri "BBS" 1 (by decide) (by decide)).1,
   by simp [ExecuteTriangle, ExecuteTriangle.body, Run.PlaceOrder, Run.Lock, Run.Unlock,
        scripted, exec0, counters, wrapInt],
   ((counter_restored scripted showQ exactOps (exec0 [(1 / 2, none), (0, some "venue error")])
      tri "BBS" 1 (by decide) (by decide)).2.2 rfl).2⟩

/-- The unsynchronised `ex.Counter++` and `ex.Counter--` lose updates: when
two calls on the shared executor both read the counter at 0 before either
writes it, each sees 1 at its `PlaceOrder` calls, and after both have returned
the counter is -1. -/
theorem counter_lost_update :
    ((Shared.mk 0 (Call.start 1) (Call.start 1)).run
        [true, false, true, false, true, false, true, true, false, false]).first.seen = [1] ∧
    ((Shared.mk 0 (Call.start 1) (Call.start 1)).run
        [true, false, true, false, true, false, true, true, false, false]).second.seen = [1] ∧
    ((Shared.mk 0 (Call.start 1) (Call.start 1)).run
        [true, false, true, false, true, false, true, true, false, false]).first.todo = [] ∧
    ((Shared.mk 0 (Call.start 1) (Call.start 1)).run
        [true, false, true, false, true, false, true, true, false, false]).second.todo = [] ∧
    ((Shared.mk 0 (Call.start 1) (Call.start 1)).run
        [true, false, true, false, true, false, true, true, false, false]).Counter = -1 := by
  decide

/-- Neither goroutine ever writes a nonzero value to `det.ssb`. -/
theorem detect_ssb_zero {σ : Type} (F : FloatOps) (d : Detector σ) (sched : Schedule)
    (det : Detection) (h : d.detect F sched = some det) : det.ssb = 0 := by
  have hb : ∀ x y : Detection, d.bbs F x = some y → y.ssb = x.ssb := by
    intro x y hxy
    simp only [Detector.bbs, Option.bind_eq_some] at hxy
    obtain ⟨a, _, b, _, c, _, hxy⟩ := hxy
    split_ifs at hxy <;> (injection hxy with hxy; subst hxy; rfl)
  have hs : ∀ x y : Detection, d.ssb F x = some y → x.ssb = 0 → y.ssb = 0 := by
    intro x y hxy hx
    simp only [Detector.ssb, Option.bind_eq_some] at hxy
    obtain ⟨a, _, b, _, c, _, hxy⟩ := hxy
    split_ifs at hxy <;> (injection hxy with hxy; subst hxy; first | rfl | exact hx)
  cases sched with
  | bbsThenSsb =>
    simp only [Detector.detect, Option.bind_eq_some] at h
    obtain ⟨m, hm, h⟩ := h
    exact hs m det h (by rw [hb _ _ hm])
  | ssbThenBbs =>
    simp only [Detector.detect, Option.bind_eq_some] at h
    obtain ⟨m, hm, h⟩ := h
    rw [hb _ _ h]
    exact hs _ m hm rfl

/-- With a threshold that is not negative, in an arithmetic whose sum `1 + x`
is not negative when `x` is not (`exactOps`, `binary64`), no tick hands the
direction "SSB" to the executor: a tick makes no call or the call
`ExecuteTriangle(d.Triangle, "BBS", d.Robot.Lot)`. -/
theorem tick_never_ssb {σ : Type} (P : PrivateClient σ) (fmt : ℚ → Int → String)
    (F : FloatOps) (hF : ∀ x : ℚ, 0 ≤ x → 0 ≤ F.add 1 x)
    (d : Detector σ) (sched : Schedule) (possibility : ℚ) (res : TickResult σ)
    (hth : 0 ≤ d.Robot.Threashold) (h : d.tick P fmt F sched possibility = some res) :
    res.call = none ∨ res.call = some (d.Triangle, "BBS", d.Robot.Lot) := by
  unfold Detector.tick at h
  cases hd : d.detect F sched with
  | none => simp [hd] at h
  | some det =>
    have hz := detect_ssb_zero F d sched det hd
    have hnot : ¬ (det.ssb > F.add 1 d.Robot.Threashold) := by
      rw [hz]; intro hgt; linarith [hF _ hth]
    simp only [hd, Option.map_some', Option.some.injEq] at h
    subst h
    split_ifs <;> simp

/-- C1 fails on the code: with the prices of the first end-to-end scenario
(BBS value 1.00203 > 1.001, last reported percent 0, counter 0) and nonzero
prices on the SSB side, when the write of `d.ssb` lands after the write of
`d.bbs` the BBS value is overwritten by the SSB value 0.99196 and the tick
makes no call; it makes the call only when the writes land in the other
order. -/
theorem bbs_detection_overwritten :
    arbitrage_formula exactOps (1 / 20) (1 / 5000) (100503 / 10000000000) (1 / 10) "BBS"
      = 100203 / 100000 ∧
    (100203 / 100000 : ℚ) > 1 + 1 / 1000 ∧
    ((detectorOf happyStore 0).tick scripted showQ exactOps Schedule.bbsThenSsb 0).map
      (fun r => (r.call, r.possibility)) = some (none, 0) ∧
    ((detectorOf happyStore 0).tick scripted showQ exactOps Schedule.ssbThenBbs 0).map
      (fun r => (r.call, r.possibility)) = some (some (tri, "BBS", 1), 203 / 1000) := by
  refine ⟨?_, ?_, ?_, ?_⟩
  · simp [arbitrage_formula, exactOps]; norm_num
  · norm_num
  · simp [Detector.tick, Detector.detect, Detector.bbs, Detector.ssb, Detector.get_price,
      Robot.GetPrice, detectorOf, robotOf, happyStore, store, book, tri, index,
      MarketSymbol.GetBaseSymbol, arbitrage_formula, exactOps]
    norm_num
  · simp [Detector.tick, Detector.detect, Detector.bbs, Detector.ssb, Detector.get_price,
      Robot.GetPrice, detectorOf, robotOf, happyStore, store, book, tri, index,
      MarketSymbol.GetBaseSymbol, arbitrage_formula, exactOps]
    norm_num

/-- C2 fails on the code: with BBS value 0.977 and SSB value 1.007 > 1.001
(last reported percent 0, counter 0) no "SSB" call is made: when the write of
`d.ssb` lands last the tick calls `ExecuteTriangle(triangle, "BBS", lot)`, and
when it lands first the tick makes no call. -/
theorem ssb_never_handed_over :
    arbitrage_formula exactOps (1 / 20) (1 / 5000) (99 / 10000000) (1 / 10) "SSB"
      = 1007 / 1000 ∧
    arbitrage_formula exactOps (1 / 20) (1 / 5000) (98 / 10000000) (1 / 10) "BBS"
      = 977 / 1000 ∧
    ((detectorOf sellStore 0).tick scripted showQ exactOps Schedule.bbsThenSsb 0).map
      (fun r => (r.call, r.possibility)) = some (some (tri, "BBS", 1), 7 / 10) ∧
    ((detectorOf sellStore 0).tick scripted showQ exactOps Schedule.ssbThenBbs 0).map
      (fun r => (r.call, r.possibility)) = some (none, 0) := by
  refine ⟨?_, ?_, ?_, ?_⟩
  · simp [arbitrage_formula, exactOps]; norm_num
  · simp [arbitrage_formula, exactOps]; norm_num
  · simp [Detector.tick, Detector.detect, Detector.bbs, Detector.ssb, Detector.get_price,
      Robot.GetPrice, detectorOf, robotOf, sellStore, store, book, tri, index,
      MarketSymbol.GetBaseSymbol, arbitrage_formula, exactOps]
    norm_num
  · simp [Detector.tick, Detector.detect, Detector.bbs, Detector.ssb, Detector.get_price,
      Robot.GetPrice, detectorOf, robotOf, sellStore, store, book, tri, index,
      MarketSymbol.GetBaseSymbol, arbitrage_formula, exactOps]
    norm_num

/-- C10: on every tick, whatever the prices and the order of the two
goroutines, if the executor counter is at least 3 the detector makes no
`ExecuteTriangle` call: no order is placed and the executor is left as it
was. -/
theorem counter_cap {σ : Type} (P : PrivateClient σ) (fmt : ℚ → Int → String)
    (F : FloatOps)
    (d : Detector σ) (sched : Schedule) (possibility : ℚ) (res : TickResult σ)
    (hcap : 3 ≤ d.Robot.Exec.Counter) (h : d.tick P fmt F sched possibility = some res) :
    res.call = none ∧ res.trace = [] ∧ res.Exec = d.Robot.Exec := by
  unfold Detector.tick at h
  cases hd : d.detect F sched with
  | none => simp [hd] at h
  | some det =>
    simp only [hd, Option.map_some', Option.some.injEq] at h
    subst h
    have hge : d.Robot.Exec.Counter ≥ 3 := hcap
    split_ifs <;> simp

theorem counter_cap_witness :
    ∃ res, (detectorOf happyStore 3).tick scripted showQ exactOps Schedule.ssbThenBbs 0
        = some res ∧
      res.possibility = 203 / 1000 ∧ res.call = none ∧ res.trace = [] := by
  have h : (detectorOf happyStore 3).tick scripted showQ exactOps Schedule.ssbThenBbs 0 =
      some { possibility := 203 / 1000, Exec := (robotOf happyStore 3).Exec, call := none,
             trace := [] } := by
    simp [Detector.tick, Detector.detect, Detector.bbs, Detector.ssb, Detector.get_price,
      Robot.GetPrice, detectorOf, robotOf, happyStore, store, book, tri, index,
      MarketSymbol.GetBaseSymbol, arbitrage_formula, exactOps]
    norm_num
  have hw := counter_cap scripted showQ exactOps (detectorOf happyStore 3)
    Schedule.ssbThenBbs 0 _
    (by simp [detectorOf, robotOf]) h
  exact ⟨_, h, rfl, hw.1, hw.2.1⟩

/-- C11: an "SSB" execution whose leg 1 succeeds with `r1` places
(initial, SELL, open, fmt lot initial.price_precision) and then
(middle, SELL, open, fmt (r1·(1+fee/100)) middle.price_precision). If leg 2
succeeds with `r2`, leg 3 is
(final, BUY, close, fmt (r2·(1+fee/100)) middle.base_precision), and when it
succeeds no error is returned. If leg 2 fails, the one compensating order is
(initial, BUY, close, saved leg-2 quantity); if leg 3 fails, the compensating
orders are (middle, BUY, close, saved leg-3 quantity) and then
(initial, BUY, close, saved leg-2 quantity); in both cases the error of the
failed leg is returned. The products `r·(1+fee/100)` are the ones the executor
computes, in its arithmetic `F` (`binary64` for the code), before it formats
them. -/
theorem ssb_protocol {σ : Type} (P : PrivateClient σ) (fmt : ℚ → Int → String)
    (F : FloatOps)
    (ex : Executor σ) (triangle : Triangle) (lot : ℚ) (c1 : σ) (r1 : ℚ)
    (h1 : P.PlaceOrder ex.Client triangle.Initial.GetSymbol "SELL" "open"
      (fmt lot triangle.Initial.GetPricePrecision) = (c1, r1, none)) :
    (∀ (c2 c3 : σ) (r2 r3 : ℚ),
      P.PlaceOrder c1 triangle.Middle.GetSymbol "SELL" "open"
        (fmt (F.mul r1 (F.add 1 (F.div ex.Fee 100))) triangle.Middle.GetPricePrecision)
          = (c2, r2, none) →
      P.PlaceOrder c2 triangle.Final.GetSymbol "BUY" "close"
        (fmt (F.mul r2 (F.add 1 (F.div ex.Fee 100))) triangle.Middle.GetBasePrecision)
          = (c3, r3, none) →
      calls (ExecuteTriangle P fmt F ex triangle "SSB" lot).1.trace =
        [⟨triangle.Initial.GetSymbol, "SELL", "open",
           fmt lot triangle.Initial.GetPricePrecision⟩,
         ⟨triangle.Middle.GetSymbol, "SELL", "open",
           fmt (F.mul r1 (F.add 1 (F.div ex.Fee 100))) triangle.Middle.GetPricePrecision⟩,
         ⟨triangle.Final.GetSymbol, "BUY", "close",
           fmt (F.mul r2 (F.add 1 (F.div ex.Fee 100))) triangle.Middle.GetBasePrecision⟩] ∧
      (ExecuteTriangle P fmt F ex triangle "SSB" lot).2 = none) ∧
    (∀ (c2 : σ) (r2 : ℚ) (e : Error),
      P.PlaceOrder c1 triangle.Middle.GetSymbol "SELL" "open"
        (fmt (F.mul r1 (F.add 1 (F.div ex.Fee 100))) triangle.Middle.GetPricePrecision)
          = (c2, r2, some e) →
      calls (ExecuteTriangle P fmt F ex triangle "SSB" lot).1.trace =
        [⟨triangle.Initial.GetSymbol, "SELL", "open",
           fmt lot triangle.Initial.GetPricePrecision⟩,
         ⟨triangle.Middle.GetSymbol, "SELL", "open",
           fmt (F.mul r1 (F.add 1 (F.div ex.Fee 100))) triangle.Middle.GetPricePrecision⟩,
         ⟨triangle.Initial.GetSymbol, "BUY", "close",
           fmt (F.mul r1 (F.add 1 (F.div ex.Fee 100))) triangle.Middle.GetPricePrecision⟩] ∧
      (ExecuteTriangle P fmt F ex triangle "SSB" lot).2 = some e) ∧
    (∀ (c2 c3 : σ) (r2 r3 : ℚ) (e : Error),
      P.PlaceOrder c1 triangle.Middle.GetSymbol "SELL" "open"
        (fmt (F.mul r1 (F.add 1 (F.div ex.Fee 100))) triangle.Middle.GetPricePrecision)
          = (c2, r2, none) →
      P.PlaceOrder c2 triangle.Final.GetSymbol "BUY" "close"
        (fmt (F.mul r2 (F.add 1 (F.div ex.Fee 100))) triangle.Middle.GetBasePrecision)
          = (c3, r3, some e) →
      calls (ExecuteTriangle P fmt F ex triangle "SSB" lot).1.trace =
        [⟨triangle.Initial.GetSymbol, "SELL", "open",
           fmt lot triangle.Initial.GetPricePrecision⟩,
         ⟨triangle.Middle.GetSymbol, "SELL", "open",
           fmt (F.mul r1 (F.add 1 (F.div ex.Fee 100))) triangle.Middle.GetPricePrecision⟩,
         ⟨triangle.Final.GetSymbol, "BUY", "close",
           fmt (F.mul r2 (F.add 1 (F.div ex.Fee 100))) triangle.Middle.GetBasePrecision⟩,
         ⟨triangle.Middle.GetSymbol, "BUY", "close",
           fmt (F.mul r2 (F.add 1 (F.div ex.Fee 100))) triangle.Middle.GetBasePrecision⟩,
         ⟨triangle.Initial.GetSymbol, "BUY", "close",
           fmt (F.mul r1 (F.add 1 (F.div ex.Fee 100))) triangle.Middle.GetPricePrecision⟩] ∧
      (ExecuteTriangle P fmt F ex triangle "SSB" lot).2 = some e) := by
  have hne : ¬ ("SSB" = "BBS") := by decide
  refine ⟨?_, ?_, ?_⟩
  · intro c2 c3 r2 r3 h2 h3
    simp [ExecuteTriangle, ExecuteTriangle.body, Run.PlaceOrder, Run.Lock, Run.Unlock,
      h1, h2, h3, calls, hne]
  · intro c2 r2 e h2
    simp [ExecuteTriangle, ExecuteTriangle.body, Run.PlaceOrder, Run.Lock, Run.Unlock,
      h1, h2, calls, hne]
  · intro c2 c3 r2 r3 e h2 h3
    simp [ExecuteTriangle, ExecuteTriangle.body, Run.PlaceOrder, Run.Lock, Run.Unlock,
      h1, h2, h3, calls, hne]

theorem ssb_protocol_witness :
    (calls (ExecuteTriangle scripted fixedPoint binary64
        (exec64 [(dbl 3 1, none), (2500, none), (1 / 40, none)]) tri3 "SSB" 1).1.trace =
      [⟨"ETHBTC", "SELL", "open", "1.000000"⟩, ⟨"XRPETH", "SELL", "open", "1.501"⟩,
       ⟨"XRPBTC", "BUY", "close", "2502.5"⟩] ∧
    (ExecuteTriangle scripted fixedPoint binary64
        (exec64 [(dbl 3 1, none), (2500, none), (1 / 40, none)]) tri3 "SSB" 1).2 = none) ∧
    (calls (ExecuteTriangle scripted fixedPoint binary64
        (exec64 [(dbl 3 1, none), (0, some "venue error")]) tri3 "SSB" 1).1.trace =
      [⟨"ETHBTC", "SELL", "open", "1.000000"⟩, ⟨"XRPETH", "SELL", "open", "1.501"⟩,
       ⟨"ETHBTC", "BUY", "close", "1.501"⟩] ∧
    (ExecuteTriangle scripted fixedPoint binary64
        (exec64 [(dbl 3 1, none), (0, some "venue error")]) tri3 "SSB" 1).2
      = some "venue error") ∧
    (calls (ExecuteTriangle scripted fixedPoint binary64
        (exec64 [(dbl 3 1, none), (2500, none), (0, some "rejected")]) tri3 "SSB" 1).1.trace =
      [⟨"ETHBTC", "SELL", "open", "1.000000"⟩, ⟨"XRPETH", "SELL", "open", "1.501"⟩,
       ⟨"XRPBTC", "BUY", "close", "2502.5"⟩, ⟨"XRPETH", "BUY", "close", "2502.5"⟩,
       ⟨"ETHBTC", "BUY", "close", "1.501"⟩] ∧
    (ExecuteTriangle scripted fixedPoint binary64
        (exec64 [(dbl 3 1, none), (2500, none), (0, some "rejected")]) tri3 "SSB" 1).2
      = some "rejected") := by
  have e0 : fixedPoint 1 6 = "1.000000" := by
    rw [fixedPoint_eq 1 6 1000000 6 rfl (by norm_num)
      (roundHalfEven_eq _ _ (by norm_num) (by norm_num))]
    decide
  have e1 : fixedPoint (dbl 6762154840496799 52) 3 = "1.501" := by
    rw [fixedPoint_eq (dbl 6762154840496799 52) 3 1501 3 rfl (by norm_num [dbl])
      (roundHalfEven_eq _ _ (by norm_num [dbl]) (by norm_num [dbl]))]
    decide
  have e2 : fixedPoint (dbl 5503055697018879 41) 1 = "2502.5" := by
    rw [fixedPoint_eq (dbl 5503055697018879 41) 1 25025 1 rfl (by norm_num [dbl])
      (roundHalfEven_eq _ _ (by norm_num [dbl]) (by norm_num [dbl]))]
    decide
  have ha := (ssb_protocol scripted fixedPoint binary64
    (exec64 [(dbl 3 1, none), (2500, none), (1 / 40, none)]) tri3 1
    [(2500, none), (1 / 40, none)] (dbl 3 1) rfl).1 [(1 / 40, none)] [] 2500 (1 / 40) rfl rfl
  have hb := (ssb_protocol scripted fixedPoint binary64
    (exec64 [(dbl 3 1, none), (0, some "venue error")]) tri3 1
    [(0, some "venue error")] (dbl 3 1) rfl).2.1 [] 0 "venue error" rfl
  have hc := (ssb_protocol scripted fixedPoint binary64
    (exec64 [(dbl 3 1, none), (2500, none), (0, some "rejected")]) tri3 1
    [(2500, none), (0, some "rejected")] (dbl 3 1) rfl).2.2
      [(0, some "rejected")] [] 2500 0 "rejected" rfl rfl
  simp only [exec64, tri3, tri, MarketSymbol.GetSymbol, MarketSymbol.GetPricePrecision,
    MarketSymbol.GetBasePrecision, f64_12, f64_1, f64_13, f64_14, e0, e1, e2] at ha hb hc
  exact ⟨ha, hb, hc⟩

/-- The rounding of the product shows in the order: for `r1 = 1.5` and the
`float64` fee 0.1 the executor computes 1.5014999999999998..., which is sent as
"1.501" at precision 3, while `r1·(1+fee/100)` without rounding is above
1.5015 and would be sent as "1.502". -/
theorem ssb_inflation_rounded :
    binary64.mul (dbl 3 1) (binary64.add 1 (binary64.div (dbl 3602879701896397 55) 100)) =
      dbl 6762154840496799 52 ∧
    fixedPoint (dbl 6762154840496799 52) 3 = "1.501" ∧
    fixedPoint (exactOps.mul (dbl 3 1) (exactOps.add 1 (exactOps.div (dbl 3602879701896397 55)
      100))) 3 = "1.502" := by
  refine ⟨?_, ?_, ?_⟩
  · rw [f64_12, f64_1, f64_13]
  · rw [fixedPoint_eq (dbl 6762154840496799 52) 3 1501 3 rfl (by norm_num [dbl])
      (roundHalfEven_eq _ _ (by norm_num [dbl]) (by norm_num [dbl]))]
    decide
  · rw [fixedPoint_eq (exactOps.mul (dbl 3 1) (exactOps.add 1
      (exactOps.div (dbl 3602879701896397 55) 100))) 3 1502 3 rfl (by norm_num [dbl, exactOps])
      (roundHalfEven_eq _ _ (by norm_num [dbl, exactOps]) (by norm_num [dbl, exactOps]))]
    decide

/-- C12 fails on the code for the BBS direction: with bid(final,0) = 0 the
BBS goroutine writes 0, but when the write of `d.ssb` lands last the SSB value
1.007 is stored in `detection.bbs` and the tick calls
`ExecuteTriangle(triangle, "BBS", lot)`; it makes no call when the writes land
in the other order. -/
theorem zero_price_bbs_handed_over :
    (detectorOf zeroBidStore 0).get_price tri.Final.GetBaseSymbol "BID" 0 = some 0 ∧
    (detectorOf zeroBidStore 0).bbs exactOps ⟨5, 5⟩ = some ⟨0, 5⟩ ∧
    ((detectorOf zeroBidStore 0).tick scripted showQ exactOps Schedule.bbsThenSsb 0).map
      (fun r => (r.call, r.possibility)) = some (some (tri, "BBS", 1), 7 / 10) ∧
    ((detectorOf zeroBidStore 0).tick scripted showQ exactOps Schedule.ssbThenBbs 0).map
      (fun r => (r.call, r.possibility)) = some (none, 0) := by
  refine ⟨?_, ?_, ?_, ?_⟩
  · simp [Detector.get_price, Robot.GetPrice, detectorOf, robotOf, zeroBidStore, store, book,
      tri, index, MarketSymbol.GetBaseSymbol]
  · simp [Detector.bbs, Detector.get_price, Robot.GetPrice, detectorOf, robotOf,
      zeroBidStore, store, book, tri, index, MarketSymbol.GetBaseSymbol]
  · simp [Detector.tick, Detector.detect, Detector.bbs, Detector.ssb, Detector.get_price,
      Robot.GetPrice, detectorOf, robotOf, zeroBidStore, store, book, tri, index,
      MarketSymbol.GetBaseSymbol, arbitrage_formula, exactOps]
    norm_num
  · simp [Detector.tick, Detector.detect, Detector.bbs, Detector.ssb, Detector.get_price,
      Robot.GetPrice, detectorOf, robotOf, zeroBidStore, store, book, tri, index,
      MarketSymbol.GetBaseSymbol, arbitrage_formula, exactOps]
    norm_num

/-- C13: on a tick, with a threshold that is not negative, on which all six
prices are read and neither the BBS value (0 when one of its prices is 0) nor
the SSB value (likewise) exceeds 1 + threshold, the detector makes no
`ExecuteTriangle` call, leaves the executor as it was and sets `possibility`
to 0, whatever the order of the two goroutines and the previous value of
`possibility`. The two values and the sum `1 + threshold` are the ones the
detector computes, in its arithmetic `F`, whose sum `1 + x` is not negative
when `x` is not (`binary64` for the code). -/
theorem threshold_miss {σ : Type} (P : PrivateClient σ) (fmt : ℚ → Int → String)
    (F : FloatOps) (hF : ∀ x : ℚ, 0 ≤ x → 0 ≤ F.add 1 x)
    (d : Detector σ) (sched : Schedule) (possibility a b c a1 b1 c1 : ℚ)
    (hth : 0 ≤ d.Robot.Threashold)
    (ha : d.get_price d.Triangle.Initial.GetBaseSymbol "ASK" 0 = some a)
    (hb : d.get_price d.Triangle.Middle.GetBaseSymbol "ASK" 0 = some b)
    (hc : d.get_price d.Triangle.Final.GetBaseSymbol "BID" 0 = some c)
    (ha1 : d.get_price d.Triangle.Initial.GetBaseSymbol "BID" 0 = some a1)
    (hb1 : d.get_price d.Triangle.Middle.GetBaseSymbol "BID" 0 = some b1)
    (hc1 : d.get_price d.Triangle.Final.GetBaseSymbol "ASK" 0 = some c1)
    (hB : ¬ ((if a = 0 ∨ b = 0 ∨ c = 0 then 0 else arbitrage_formula F a b c d.Fee "BBS")
      > F.add 1 d.Robot.Threashold))
    (hS : ¬ ((if a1 = 0 ∨ b1 = 0 ∨ c1 = 0 then 0
        else arbitrage_formula F a1 b1 c1 d.Fee "SSB") > F.add 1 d.Robot.Threashold)) :
    d.tick P fmt F sched possibility =
      some { possibility := 0, Exec := d.Robot.Exec, call := none, trace := [] } := by
  have h0 : ¬ ((0 : ℚ) > F.add 1 d.Robot.Threashold) := by
    intro h; linarith [hF _ hth]
  cases sched <;>
    by_cases hz : a = 0 ∨ b = 0 ∨ c = 0 <;>
    by_cases hz1 : a1 = 0 ∨ b1 = 0 ∨ c1 = 0 <;>
    simp only [hz, hz1, if_true, if_false] at hB hS <;>
    simp [Detector.tick, Detector.detect, Detector.bbs, Detector.ssb, ha, hb, hc, ha1, hb1,
      hc1, hz, hz1, hB, hS, h0]

theorem threshold_miss_witness :
    arbitrage_formula binary64 (dbl 3602879701896397 56) (dbl 7378697629483821 65)
      (dbl 5902958103587057 69) (dbl 3602879701896397 55) "BBS" = dbl 8980177656976769 53 ∧
    (detector64 missStore64 0).tick scripted showQ binary64 Schedule.bbsThenSsb
        (dbl 112589990684275 50) =
      some { possibility := 0, Exec := (detector64 missStore64 0).Robot.Exec, call := none,
             trace := [] } := by
  have hne : ¬ ("SSB" = "BBS") := by decide
  have hz : ¬ (dbl 3602879701896397 56 = 0 ∨ dbl 7378697629483821 65 = 0 ∨
      dbl 5902958103587057 69 = 0) := by norm_num [dbl]
  have hv : arbitrage_formula binary64 (dbl 3602879701896397 56) (dbl 7378697629483821 65)
      (dbl 5902958103587057 69) (dbl 3602879701896397 55) "BBS" = dbl 8980177656976769 53 := by
    simp only [arbitrage_formula, if_true, f64_2, f64_9, f64_4, f64_5, f64_10]
  have hs : arbitrage_formula binary64 (dbl 3602879701896397 56) (dbl 7378697629483821 65)
      (dbl 5902958103587057 69) (dbl 3602879701896397 55) "SSB" = dbl 8980177656976769 53 := by
    simp only [arbitrage_formula, if_neg hne, if_true, f64_2, f64_9, f64_4, f64_5, f64_11,
      f64_10]
  have hle : ¬ (dbl 8980177656976769 53 > dbl 2254051613498933 51) := by norm_num [dbl]
  exact ⟨hv,
   threshold_miss scripted showQ binary64 binary64_add_nonneg (detector64 missStore64 0)
    Schedule.bbsThenSsb (dbl 112589990684275 50)
    (dbl 3602879701896397 56) (dbl 7378697629483821 65) (dbl 5902958103587057 69)
    (dbl 3602879701896397 56) (dbl 7378697629483821 65) (dbl 5902958103587057 69)
    (by norm_num [detector64, robot64, dbl])
    (by simp [Detector.get_price, Robot.GetPrice, detector64, robot64, missStore64, store, book,
          tri, index, MarketSymbol.GetBaseSymbol])
    (by simp [Detector.get_price, Robot.GetPrice, detector64, robot64, missStore64, store, book,
          tri, index, MarketSymbol.GetBaseSymbol])
    (by simp [Detector.get_price, Robot.GetPrice, detector64, robot64, missStore64, store, book,
          tri, index, MarketSymbol.GetBaseSymbol])
    (by simp [Detector.get_price, Robot.GetPrice, detector64, robot64, missStore64, store, book,
          tri, index, MarketSymbol.GetBaseSymbol])
    (by simp [Detector.get_price, Robot.GetPrice, detector64, robot64, missStore64, store, book,
          tri, index, MarketSymbol.GetBaseSymbol])
    (by simp [Detector.get_price, Robot.GetPrice, detector64, robot64, missStore64, store, book,
          tri, index, MarketSymbol.GetBaseSymbol])
    (by
      have hd : (detector64 missStore64 0).Fee = dbl 3602879701896397 55 := rfl
      have ht : (detector64 missStore64 0).Robot.Threashold = dbl 1152921504606847 60 := rfl
      rw [if_neg hz, hd, ht, hv, f64_1]
      exact hle)
    (by
      have hd : (detector64 missStore64 0).Fee = dbl 3602879701896397 55 := rfl
      have ht : (detector64 missStore64 0).Robot.Threashold = dbl 1152921504606847 60 := rfl
      rw [if_neg hz, hd, ht, hs, f64_1]
      exact hle)⟩

/-- The comparison is made on rounded values. With the `float64` prices
0.05, 0.0002 and 0.00001004, fee 0.1 and threshold 0.001, the BBS value
without rounding does not exceed 1 + threshold; the detector computes
1.0010000000000001 and 1.001, and when the write of `d.bbs` lands last the
tick calls `ExecuteTriangle(triangle, "BBS", lot)`. -/
theorem threshold_rounding :
    ¬ (arbitrage_formula exactOps (dbl 3602879701896397 56) (dbl 7378697629483821 65)
        (dbl 5926569936001405 69) (dbl 3602879701896397 55) "BBS" >
      exactOps.add 1 (dbl 1152921504606847 60)) ∧
    arbitrage_formula binary64 (dbl 3602879701896397 56) (dbl 7378697629483821 65)
      (dbl 5926569936001405 69) (dbl 3602879701896397 55) "BBS" = dbl 4508103226997867 52 ∧
    binary64.add 1 (dbl 1152921504606847 60) = dbl 2254051613498933 51 ∧
    ((detector64 edgeStore64 0).tick scripted showQ binary64 Schedule.ssbThenBbs 0).map
      (fun r => (r.call, r.possibility)) =
        some (some (tri, "BBS", 1), dbl 112589990684275 50) := by
  have hv : arbitrage_formula binary64 (dbl 3602879701896397 56) (dbl 7378697629483821 65)
      (dbl 5926569936001405 69) (dbl 3602879701896397 55) "BBS" = dbl 4508103226997867 52 := by
    simp only [arbitrage_formula, if_true, f64_2, f64_3, f64_4, f64_5, f64_6]
  have h1 : ¬ (dbl 3602879701896397 56 = 0) := by norm_num [dbl]
  have h2 : ¬ (dbl 7378697629483821 65 = 0) := by norm_num [dbl]
  have h3 : ¬ (dbl 5926569936001405 69 = 0) := by norm_num [dbl]
  have hgt : dbl 2254051613498933 51 < dbl 4508103226997867 52 := by norm_num [dbl]
  have hcur : ¬ ((0 : ℚ) = dbl 112589990684275 50) := by norm_num [dbl]
  refine ⟨?_, hv, f64_1, ?_⟩
  · norm_num [arbitrage_formula, exactOps, dbl]
  · simp [Detector.tick, Detector.detect, Detector.bbs, Detector.ssb, Detector.get_price,
      Robot.GetPrice, detector64, robot64, edgeStore64, store, book, tri, index,
      MarketSymbol.GetBaseSymbol, hv, f64_1, f64_7, f64_8, h1, h2, h3, hgt, hcur]

/-- C16 fails on the code: for a stored event with one ask level and no bid
level, `GetPrice(symbol, "BID", 0)` indexes the empty `Bids` and panics, and
`GetPrice(symbol, "ASK", 0)` returns the ask price 101, not 0; only the
missing key and the empty `Asks` return 0. -/
theorem get_price_empty_bids :
    (robotOf askOnlyStore 0).GetPrice "ETH+BTC" "BID" 0 = none ∧
    (robotOf askOnlyStore 0).GetPrice "ETH+BTC" "ASK" 0 = some 101 ∧
    (robotOf askOnlyStore 0).GetPrice "XRP+BTC" "BID" 0 = some 0 := by
  simp [Robot.GetPrice, robotOf, askOnlyStore, index]

/-- The snapshot loop on `[price, quantity]` levels sets every level. -/
theorem storeLevels_pairs (ls : List (String × String)) (m : GoMap String) :
    Bybit.storeLevels m (ls.map fun l => [l.1, l.2]) =
      some (ls.foldl (fun m l => m.set l.1 l.2) m) := by
  induction ls generalizing m with
  | nil => rfl
  | cons l ls ih => simp [Bybit.storeLevels, ih]

/-- The delta loop on `[price, quantity]` levels and a map that is not nil is
the fold of the reconciliation step. -/
theorem applyDeltas_pairs (ls : List (String × String)) (m : GoMap String) :
    Bybit.applyDeltas (some m) (ls.map fun l => [l.1, l.2]) =
      some (some (ls.foldl Spec.step m)) := by
  induction ls generalizing m with
  | nil => rfl
  | cons l ls ih =>
    by_cases hq : l.2 = "0"
    · simp [Bybit.applyDeltas, Spec.step, hq, ih]
    · simp [Bybit.applyDeltas, Spec.step, hq, ih]

/-- One delta message on maps that are not nil. -/
theorem OnMessage_delta (parse : String → ℚ) (iter : GoMap String → List (String × String))
    (symbol : MarketSymbol) (s : String) (asks bids : List (String × String))
    (mA mB : GoMap String) :
    (Bybit.OnMessage parse iter symbol { snapshotA := some mA, snapshotB := some mB }
        (Bybit.message "delta" s asks bids)).map Prod.fst =
      some { snapshotA := some (asks.foldl Spec.step mA),
             snapshotB := some (bids.foldl Spec.step mB) } := by
  have hne : ¬ ("delta" = "snapshot") := by decide
  simp [Bybit.OnMessage, Bybit.message, hne, applyDeltas_pairs]

/-- Delta messages fold the reconciliation step into both maps. -/
theorem run_deltas (parse : String → ℚ) (iter : GoMap String → List (String × String))
    (symbol : MarketSymbol) (s : String)
    (deltas : List (List (String × String) × List (String × String)))
    (mA mB : GoMap String) :
    Bybit.run parse iter symbol { snapshotA := some mA, snapshotB := some mB }
        (deltas.map fun d => Bybit.message "delta" s d.1 d.2) =
      some { snapshotA := some ((deltas.map Prod.fst).foldl (fun m d => d.foldl Spec.step m) mA),
             snapshotB :=
               some ((deltas.map Prod.snd).foldl (fun m d => d.foldl Spec.step m) mB) } := by
  induction deltas generalizing mA mB with
  | nil => rfl
  | cons d ds ih =>
    have h := OnMessage_delta parse iter symbol s d.1 d.2 mA mB
    simp only [List.map_cons, Bybit.run, List.foldl_cons]
    cases hm : Bybit.OnMessage parse iter symbol { snapshotA := some mA, snapshotB := some mB }
        (Bybit.message "delta" s d.1 d.2) with
    | none => simp [hm] at h
    | some r =>
      obtain ⟨st1, b⟩ := r
      simp only [hm, Option.map_some', Option.some.injEq] at h
      subst h
      exact ih _ _

/-- C14: for every snapshot message followed by any finite sequence of delta
messages, all levels being `[price, quantity]` pairs, and whatever the maps
held before the snapshot, the handler runs without panic and the ask map and
the bid map it holds afterwards are the left fold, over the levels of the
deltas, of the step "remove the price when the quantity is "0", otherwise set
price ↦ quantity", starting from the price ↦ quantity map of the snapshot. -/
theorem bybit_reconcile (parse : String → ℚ) (iter : GoMap String → List (String × String))
    (symbol : MarketSymbol) (s : String) (st0 : Bybit.Stream)
    (asks bids : List (String × String))
    (deltas : List (List (String × String) × List (String × String))) :
    Bybit.run parse iter symbol st0
        (Bybit.message "snapshot" s asks bids ::
          deltas.map fun d => Bybit.message "delta" s d.1 d.2) =
      some { snapshotA := some (Spec.reconcile asks (deltas.map Prod.fst)),
             snapshotB := some (Spec.reconcile bids (deltas.map Prod.snd)) } := by
  have h := run_deltas parse iter symbol s deltas
    (asks.foldl (fun m l => m.set l.1 l.2) []) (bids.foldl (fun m l => m.set l.1 l.2) [])
  simp only [Bybit.run, Bybit.OnMessage, Bybit.message, if_true, storeLevels_pairs,
    Option.some_bind]
  exact h

/-- Scenario 6 for C14: the snapshot with bids 100 ↦ 1, 99 ↦ 2 and ask
101 ↦ 1, followed by the delta with bids 99 ↦ 0, 98 ↦ 3 and ask 101 ↦ 0.5,
leaves the bids 100 ↦ 1, 98 ↦ 3 (size 2) and the ask 101 ↦ 0.5 (size 1). -/
theorem bybit_reconcile_scenario :
    Bybit.run (fun _ => 0) id tri.Final { snapshotA := none, snapshotB := none }
        [Bybit.message "snapshot" "XRPBTC" [("101", "1")] [("100", "1"), ("99", "2")],
         Bybit.message "delta" "XRPBTC" [("101", "0.5")] [("99", "0"), ("98", "3")]] =
      some { snapshotA := some [("101", "0.5")],
             snapshotB := some [("100", "1"), ("98", "3")] } ∧
    [("101", "0.5")].length = 1 ∧ [("100", "1"), ("98", "3")].length = 2 := by
  have h := bybit_reconcile (fun _ => 0) id tri.Final "XRPBTC"
    { snapshotA := none, snapshotB := none } [("101", "1")] [("100", "1"), ("99", "2")]
    [([("101", "0.5")], [("99", "0"), ("98", "3")])]
  have hA : Spec.reconcile [("101", "1")] [[("101", "0.5")]] = [("101", "0.5")] := by decide
  have hB : Spec.reconcile [("100", "1"), ("99", "2")] [[("99", "0"), ("98", "3")]] =
      [("100", "1"), ("98", "3")] := by decide
  refine ⟨?_, rfl, rfl⟩
  simpa [hA, hB] using h

/-- C15 fails on the code: the handler appends the levels in the order in
which `range` visits the maps and never sorts them. After the snapshot and
delta of scenario 6 the bid map holds 100 ↦ 1 and 98 ↦ 3; when the runtime
visits 98 first, the emitted book has `Bids[0].Price = 98`, not the maximum
bid 100. -/
theorem bybit_book_unsorted :
    ([("100", "1"), ("98", "3")] : List (String × String)).reverse.Perm
      [("100", "1"), ("98", "3")] ∧
    (Bybit.lastBook parseDecimal List.reverse tri.Final
        { snapshotA := none, snapshotB := none }
        [Bybit.message "snapshot" "XRPBTC" [("101", "1")] [("100", "1"), ("99", "2")],
         Bybit.message "delta" "XRPBTC" [("101", "0.5")] [("99", "0"), ("98", "3")]]).map
      (fun b => (b.Bids.map PriceLevel.Price, b.Asks.map PriceLevel.Price))
      = some ([98, 100], [101]) := by
  have h98 : decimalParts "98" = some (98, none) := by decide
  have h100 : decimalParts "100" = some (100, none) := by decide
  have h101 : decimalParts "101" = some (101, none) := by decide
  have hne : ¬ ("delta" = "snapshot") := by decide
  refine ⟨List.reverse_perm _, ?_⟩
  simp [Bybit.lastBook, Bybit.OnMessage, Bybit.message, Bybit.storeLevels, Bybit.applyDeltas,
    Bybit.levels, GoMap.set, GoMap.delete, hne, parseDecimal, h98, h100, h101]

/-- A character that does not occur has index -1. -/
theorem Index_go_not_mem (c : Char) (l : List Char) (i : Nat) (h : c ∉ l) :
    strings.Index.go c l i = -1 := by
  induction l generalizing i with
  | nil => rfl
  | cons x xs ih =>
    have hx : x ≠ c := fun hxc => h (by simp [hxc])
    have hxs : c ∉ xs := fun hm => h (List.mem_cons_of_mem _ hm)
    simp [strings.Index.go, hx, ih _ hxs]

/-- An index is -1 or lies inside the string. -/
theorem Index_go_range (c : Char) (l : List Char) (i : Nat) :
    strings.Index.go c l i = -1 ∨
      ((i : Int) ≤ strings.Index.go c l i ∧ strings.Index.go c l i < (i + byteLen l : Nat)) := by
  induction l generalizing i with
  | nil => left; rfl
  | cons x xs ih =>
    have hpos : 0 < x.utf8Size := Char.utf8Size_pos x
    by_cases hx : x = c
    · right
      simp only [strings.Index.go, hx, if_true, byteLen]
      have hpos1 : 0 < c.utf8Size := Char.utf8Size_pos c
      constructor
      · exact le_refl _
      · exact_mod_cast (by omega : i < i + (c.utf8Size + byteLen xs))
    · simp only [strings.Index.go, hx, if_false, byteLen]
      rcases ih (i + x.utf8Size) with h | ⟨h1, h2⟩
      · left; exact h
      · right
        constructor
        · have : ((i : Nat) : Int) ≤ ((i + x.utf8Size : Nat) : Int) := by exact_mod_cast (by omega)
          exact le_trans this h1
        · have : ((i + x.utf8Size + byteLen xs : Nat) : Int) =
              ((i + (x.utf8Size + byteLen xs) : Nat) : Int) := by
            exact_mod_cast (by omega)
          rw [← this]; exact h2

/-- The first '1' after `k` zeros is `k` bytes further. -/
theorem Index_go_zeros (k : Nat) (rest : List Char) (i : Nat) :
    strings.Index.go '1' (List.replicate k '0' ++ '1' :: rest) i = ((i + k : Nat) : Int) := by
  induction k generalizing i with
  | zero => simp [strings.Index.go]
  | succ k ih =>
    have h0 : ¬ ('0' = '1') := by decide
    have hs : ('0' : Char).utf8Size = 1 := by decide
    show strings.Index.go '1' ('0' :: (List.replicate k '0' ++ '1' :: rest)) i = _
    rw [strings.Index.go, if_neg h0, hs, ih]
    exact_mod_cast (by omega : i + 1 + k = i + (k + 1))

/-- C17: `GetPrecision s` is 0 when `s` has no '.', 0 when `s` begins with
'1', and `o − d` when the first '.' is at index `d` and the first '1' at a
later index `o`; so "0." followed by `n − 1` zeros, a "1" and any further
characters has precision `n` for every `n ≥ 1`, and the precisions of
"0.0001", "1", "0.1", "0.00010" are 4, 0, 1, 4. -/
theorem GetPrecision_law (s : String) :
    ('.' ∉ s.data → GetPrecision s = some 0) ∧
    (s.data.head? = some '1' → GetPrecision s = some 0) ∧
    (∀ d o : Int, strings.Index s '.' = d → strings.Index s '1' = o → 0 ≤ d → d < o →
      GetPrecision s = some (o - d)) ∧
    (∀ (n : Nat) (rest : String), 1 ≤ n →
      GetPrecision (String.mk ('0' :: '.' :: (List.replicate (n - 1) '0' ++ '1' :: rest.data)))
        = some (n : Int)) ∧
    GetPrecision "0.0001" = some 4 ∧ GetPrecision "1" = some 0 ∧
    GetPrecision "0.1" = some 1 ∧ GetPrecision "0.00010" = some 4 := by
  have hgen : ∀ (t : String) (d o : Int), strings.Index t '.' = d → strings.Index t '1' = o →
      0 ≤ d → d < o → GetPrecision t = some (o - d) := by
    intro t d o hd ho hd0 hdo
    have hr := Index_go_range '1' t.data 0
    have ho1 : strings.Index.go '1' t.data 0 = o := ho
    rw [ho1] at hr
    have hlen : o ≤ (byteLen t.data : Int) := by
      rcases hr with h | ⟨_, h⟩
      · omega
      · have : ((0 + byteLen t.data : Nat) : Int) = (byteLen t.data : Int) := by simp
        omega
    have h1 : ¬ (d = -1) := by omega
    have h2 : ¬ (o = 0) := by omega
    simp only [GetPrecision, hd, ho, h1, h2, if_false]
    rw [if_pos ⟨hd0, le_of_lt hdo, hlen⟩]
  refine ⟨?_, ?_, hgen s, ?_, by decide, by decide, by decide, by decide⟩
  · intro h
    simp [GetPrecision, strings.Index, Index_go_not_mem '.' s.data 0 h]
  · intro h
    have h1 : strings.Index s '1' = 0 := by
      cases hs : s.data with
      | nil => simp [hs] at h
      | cons x xs =>
        simp only [hs, List.head?_cons, Option.some.injEq] at h
        simp [strings.Index, hs, strings.Index.go, h]
    simp only [GetPrecision, h1, if_true]
    split_ifs <;> rfl
  · intro n rest hn
    have h0 : ¬ ('0' = '.') := by decide
    have h01 : ¬ ('0' = '1') := by decide
    have hd1 : ¬ ('.' = '1') := by decide
    have hs0 : ('0' : Char).utf8Size = 1 := by decide
    have hsd : ('.' : Char).utf8Size = 1 := by decide
    have hd : strings.Index
        (String.mk ('0' :: '.' :: (List.replicate (n - 1) '0' ++ '1' :: rest.data))) '.' = 1 := by
      simp [strings.Index, strings.Index.go, h0, hs0]
    have ho : strings.Index
        (String.mk ('0' :: '.' :: (List.replicate (n - 1) '0' ++ '1' :: rest.data))) '1'
          = (n : Int) + 1 := by
      simp only [strings.Index, strings.Index.go, h01, hd1, if_false, hs0, hsd,
        Index_go_zeros]
      have : 0 + 1 + 1 + (n - 1) = n + 1 := by omega
      rw [this]; push_cast; ring
    have := hgen _ 1 ((n : Int) + 1) hd ho (by omega) (by omega)
    rw [this]; congr 1; ring

set_option maxRecDepth 100000 in
/-- C18 fails on the code: the sorted keys are copied into a Go map, and both
the signed string and the URL are assembled by `range` loops over that map.
For the parameters side, symbol, timestamp: when the last loop visits the
entries in reverse, the signature comes first and the parameters appear in
another order than the one that was signed; when the signing loop visits them
in reverse, the signature is computed over an unsorted string. Only when
both loops happen to visit the keys in ascending order, with "signature"
last, is the URL the one the claim describes. -/
theorem binance_signed_url_order :
    BinancePrivateClient.PerformSign.url showHmac (Sprintv fun _ => "") id id id "sec"
        [("symbol", Value.str "ETHBTC"), ("side", Value.str "BUY"),
         ("timestamp", Value.int 1700000000000)] "sapi/v1/margin/order" =
      "https://api.binance.com/sapi/v1/margin/order?side=BUY&symbol=ETHBTC&timestamp=1700000000000&signature=HMAC[sec|side=BUY&symbol=ETHBTC&timestamp=1700000000000]" ∧
    BinancePrivateClient.PerformSign.url showHmac (Sprintv fun _ => "") id id List.reverse "sec"
        [("symbol", Value.str "ETHBTC"), ("side", Value.str "BUY"),
         ("timestamp", Value.int 1700000000000)] "sapi/v1/margin/order" =
      "https://api.binance.com/sapi/v1/margin/order?signature=HMAC[sec|side=BUY&symbol=ETHBTC&timestamp=1700000000000]&timestamp=1700000000000&symbol=ETHBTC&side=BUY" ∧
    BinancePrivateClient.PerformSign.url showHmac (Sprintv fun _ => "") id List.reverse id "sec"
        [("symbol", Value.str "ETHBTC"), ("side", Value.str "BUY"),
         ("timestamp", Value.int 1700000000000)] "sapi/v1/margin/order" =
      "https://api.binance.com/sapi/v1/margin/order?side=BUY&symbol=ETHBTC&timestamp=1700000000000&signature=HMAC[sec|timestamp=1700000000000&symbol=ETHBTC&side=BUY]" := by
  refine ⟨?_, ?_, ?_⟩ <;> decide

set_option maxRecDepth 100000 in
/-- C19 fails on the code: `Perform` copies the sorted keys into a Go map and
assembles the query string by a `range` loop over that map. For the
parameters category, limit of `GetInstrumentsInfo`, two calls of the Bybit
`Perform` in which that loop visits the entries in different orders build
different URLs, one of them with the keys in descending order; likewise for
the Binance `Perform`. -/
theorem perform_url_order :
    BybitPublicClient.Perform.url (Sprintv fun _ => "") id id id
        [("category", Value.str "spot"), ("limit", Value.int 1000)]
        "/v5/market/instruments-info" =
      "https://api.bybit.com//v5/market/instruments-info?category=spot&limit=1000" ∧
    BybitPublicClient.Perform.url (Sprintv fun _ => "") id id List.reverse
        [("category", Value.str "spot"), ("limit", Value.int 1000)]
        "/v5/market/instruments-info" =
      "https://api.bybit.com//v5/market/instruments-info?limit=1000&category=spot" ∧
    BinancePublicClient.Perform.url (Sprintv fun _ => "") id id
        [("limit", Value.int 5), ("symbol", Value.str "ETHBTC")] "api/v3/depth" =
      "https://api.binance.com/api/v3/depth?limit=5&symbol=ETHBTC" ∧
    BinancePublicClient.Perform.url (Sprintv fun _ => "") id List.reverse
        [("limit", Value.int 5), ("symbol", Value.str "ETHBTC")] "api/v3/depth" =
      "https://api.binance.com/api/v3/depth?symbol=ETHBTC&limit=5" := by
  refine ⟨?_, ?_, ?_, ?_⟩ <;> decide

/-- A decimal digit character holds its digit and is no minus sign. -/
theorem digitChar_value (k : Nat) (hk : k < 10) :
    (Nat.digitChar k).toNat - 48 = k ∧ Nat.digitChar k ≠ '-' := by
  interval_cases k <;> decide

/-- Reading one more digit. -/
theorem digitsValue_append (xs : List Char) (c : Char) :
    digitsValue (xs ++ [c]) = digitsValue xs * 10 + (c.toNat - 48) := by
  simp [digitsValue, List.foldl_append]

/-- The digits produced by `Nat.toDigitsCore` in base 10 are put in front of
the accumulator, write the number, and hold no minus sign. -/
theorem toDigitsCore_spec (fuel n : Nat) (ds : List Char) (h : n < fuel) :
    ∃ pre : List Char, Nat.toDigitsCore 10 fuel n ds = pre ++ ds ∧ digitsValue pre = n ∧
      ∀ c ∈ pre, c ≠ '-' := by
  induction fuel generalizing n ds with
  | zero => omega
  | succ fuel ih =>
    have hd := digitChar_value (n % 10) (Nat.mod_lt _ (by norm_num))
    by_cases h0 : n / 10 = 0
    · refine ⟨[Nat.digitChar (n % 10)], ?_, ?_, ?_⟩
      · simp [Nat.toDigitsCore, h0]
      · have hn : n % 10 = n := Nat.mod_eq_of_lt (by omega)
        have h1 := hd.1
        simp only [digitsValue, List.foldl_cons, List.foldl_nil, Nat.zero_mul, Nat.zero_add]
        rw [h1, hn]
      · intro c hc
        simp only [List.mem_singleton] at hc
        rw [hc]; exact hd.2
    · obtain ⟨pre, hpre, hval, hminus⟩ := ih (n / 10) (Nat.digitChar (n % 10) :: ds) (by omega)
      refine ⟨pre ++ [Nat.digitChar (n % 10)], ?_, ?_, ?_⟩
      · simp [Nat.toDigitsCore, h0, hpre]
      · rw [digitsValue_append, hval, hd.1]; omega
      · intro c hc
        rcases List.mem_append.1 hc with hc | hc
        · exact hminus c hc
        · simp only [List.mem_singleton] at hc
          rw [hc]; exact hd.2

/-- The characters of `Nat.repr n` write `n` and hold no minus sign. -/
theorem Nat_repr_spec (n : Nat) :
    digitsValue (Nat.repr n).data = n ∧ ∀ c ∈ (Nat.repr n).data, c ≠ '-' := by
  obtain ⟨pre, hpre, hval, hminus⟩ := toDigitsCore_spec (n + 1) n [] (by omega)
  have : (Nat.repr n).data = pre := by
    simp [Nat.repr, Nat.toDigits, hpre, List.asString]
  rw [this]; exact ⟨hval, hminus⟩

/-- The decimal rendering of an integer determines the integer. -/
theorem toString_int_injective (a b : Int) (h : toString a = toString b) : a = b := by
  have key : ∀ n m : Nat, Nat.repr n = Nat.repr m → n = m := by
    intro n m hnm
    have h1 := (Nat_repr_spec n).1
    rw [hnm, (Nat_repr_spec m).1] at h1
    exact h1.symm
  have mixed : ∀ n m : Nat, Nat.repr n ≠ "-" ++ Nat.repr m := by
    intro n m hnm
    have h1 := (Nat_repr_spec n).2 '-'
    rw [hnm] at h1
    exact h1 (by simp) rfl
  cases a with
  | ofNat n =>
    cases b with
    | ofNat m =>
      have : Nat.repr n = Nat.repr m := h
      rw [key n m this]
    | negSucc m => exact absurd h (mixed n (m + 1))
  | negSucc n =>
    cases b with
    | ofNat m => exact absurd h.symm (mixed m (n + 1))
    | negSucc m =>
      have h1 : "-" ++ Nat.repr (n + 1) = "-" ++ Nat.repr (m + 1) := h
      have h2 : Nat.repr (n + 1) = Nat.repr (m + 1) := by
        have := congrArg String.data h1
        simp only [String.data_append, List.append_cancel_left_eq] at this
        exact String.ext this
      have := key _ _ h2
      have : n = m := by omega
      rw [this]

instance stringLe.isTotal : IsTotal String stringLe :=
  ⟨fun a b => le_total (a.data.map Char.toNat) (b.data.map Char.toNat)⟩

instance stringLe.isTrans : IsTrans String stringLe :=
  ⟨fun a b c h1 h2 =>
    le_trans (a := a.data.map Char.toNat) (b := b.data.map Char.toNat)
      (c := c.data.map Char.toNat) h1 h2⟩

instance stringLe.isAntisymm : IsAntisymm String stringLe :=
  ⟨fun a b h1 h2 => by
    have h : a.data.map Char.toNat = b.data.map Char.toNat := le_antisymm h1 h2
    have hinj : Function.Injective Char.toNat := fun x y hxy =>
      Char.ext (UInt32.ext (by simpa [Char.toNat] using hxy))
    exact String.ext (List.map_injective_iff.2 hinj h)⟩

/-- Sorting the keys gives the same list for every order in which they were
collected. -/
theorem sort_Strings_perm (l1 l2 : List String) (h : l1.Perm l2) :
    sort.Strings l1 = sort.Strings l2 :=
  List.eq_of_perm_of_sorted
    (((List.perm_insertionSort stringLe l1).trans h).trans
      (List.perm_insertionSort stringLe l2).symm)
    (List.sorted_insertionSort stringLe l1) (List.sorted_insertionSort stringLe l2)

/-- The keys kept by `PreparePayload` are a sublist of the sorted keys. -/
theorem entries_keys_sublist (parameters : GoMap Value) (keys : List String) :
    ((keys.filterMap fun k =>
        match (parameters.get k).getD Value.nil with
        | Value.nil => none
        | v => some (k, v)).map Prod.fst).Sublist keys := by
  induction keys with
  | nil => simp
  | cons k ks ih =>
    cases hv : (parameters.get k).getD Value.nil with
    | nil => simpa [List.filterMap_cons, hv] using ih.cons k
    | str s => simpa [List.filterMap_cons, hv] using ih.cons₂ k
    | int n => simpa [List.filterMap_cons, hv] using ih.cons₂ k
    | float x => simpa [List.filterMap_cons, hv] using ih.cons₂ k

/-- Appending the same string on the right is injective. -/
theorem append_right_cancel (a b c : String) (h : a ++ c = b ++ c) : a = b := by
  have := congrArg String.data h
  simp only [String.data_append, List.append_cancel_right_eq] at this
  exact String.ext this

/-- Appending to the same string on the left is injective. -/
theorem append_left_cancel (a b c : String) (h : c ++ a = c ++ b) : a = b := by
  have := congrArg String.data h
  simp only [String.data_append, List.append_cancel_left_eq] at this
  exact String.ext this

/-- C20: the Bybit signature is the HMAC, under the secret, of
decimal(timestamp) ++ key ++ decimal(recv_window) ++ payload; for GET the
payload lists exactly the parameters that are not nil, as k=v joined by '&',
with the keys in ascending order, whatever the iteration order of the map;
and the signature depends on all four inputs: with the other three held
fixed, changing the timestamp, the key, recv_window or the payload changes the
string that is signed, and it alters the signature whenever the two signed
strings lie in a set `signed` on which the HMAC has no collision. -/
theorem bybit_signature_inputs (hmacHex : String → String → String)
    (sprintv : Value → String) (secret key payload : String) (recvWindow timestamp : Int)
    (parameters : GoMap Value) (signed : Set String)
    (hinj : Set.InjOn (hmacHex secret) signed)
    (hmem : BybitPrivateClient.signedData timestamp key recvWindow payload ∈ signed) :
    BybitPrivateClient.generateSignature hmacHex secret key recvWindow payload timestamp =
      hmacHex secret (toString timestamp ++ key ++ toString recvWindow ++ payload) ∧
    (∀ iter : GoMap Value → List (String × Value),
      List.Sorted stringLe ((PreparePayload.entries iter parameters).map Prod.fst)) ∧
    (∀ iter : GoMap Value → List (String × Value), (iter parameters).Perm parameters →
      ∀ (k : String) (v : Value), (k, v) ∈ PreparePayload.entries iter parameters ↔
        (k ∈ parameters.keys ∧ (parameters.get k).getD Value.nil = v ∧ v ≠ Value.nil)) ∧
    (∀ iter1 iter2 : GoMap Value → List (String × Value),
      (iter1 parameters).Perm parameters → (iter2 parameters).Perm parameters →
      PreparePayload.GET sprintv iter1 parameters =
        PreparePayload.GET sprintv iter2 parameters) ∧
    (∀ t : Int, t ≠ timestamp →
      BybitPrivateClient.signedData t key recvWindow payload ≠
        BybitPrivateClient.signedData timestamp key recvWindow payload ∧
      (BybitPrivateClient.signedData t key recvWindow payload ∈ signed →
        BybitPrivateClient.generateSignature hmacHex secret key recvWindow payload t ≠
          BybitPrivateClient.generateSignature hmacHex secret key recvWindow payload
            timestamp)) ∧
    (∀ k : String, k ≠ key →
      BybitPrivateClient.signedData timestamp k recvWindow payload ≠
        BybitPrivateClient.signedData timestamp key recvWindow payload ∧
      (BybitPrivateClient.signedData timestamp k recvWindow payload ∈ signed →
        BybitPrivateClient.generateSignature hmacHex secret k recvWindow payload timestamp ≠
          BybitPrivateClient.generateSignature hmacHex secret key recvWindow payload
            timestamp)) ∧
    (∀ w : Int, w ≠ recvWindow →
      BybitPrivateClient.signedData timestamp key w payload ≠
        BybitPrivateClient.signedData timestamp key recvWindow payload ∧
      (BybitPrivateClient.signedData timestamp key w payload ∈ signed →
        BybitPrivateClient.generateSignature hmacHex secret key w payload timestamp ≠
          BybitPrivateClient.generateSignature hmacHex secret key recvWindow payload
            timestamp)) ∧
    (∀ p : String, p ≠ payload →
      BybitPrivateClient.signedData timestamp key recvWindow p ≠
        BybitPrivateClient.signedData timestamp key recvWindow payload ∧
      (BybitPrivateClient.signedData timestamp key recvWindow p ∈ signed →
        BybitPrivateClient.generateSignature hmacHex secret key recvWindow p timestamp ≠
          BybitPrivateClient.generateSignature hmacHex secret key recvWindow payload
            timestamp)) := by
  have hsig : ∀ d : String, d ∈ signed →
      d ≠ BybitPrivateClient.signedData timestamp key recvWindow payload →
      hmacHex secret d ≠
        hmacHex secret (BybitPrivateClient.signedData timestamp key recvWindow payload) :=
    fun d hd hne h => hne (hinj hd hmem h)
  have ht : ∀ t : Int, t ≠ timestamp →
      BybitPrivateClient.signedData t key recvWindow payload ≠
        BybitPrivateClient.signedData timestamp key recvWindow payload := by
    intro t ht h
    apply ht
    simp only [BybitPrivateClient.signedData] at h
    exact toString_int_injective _ _
      (append_right_cancel _ _ _ (append_right_cancel _ _ _ (append_right_cancel _ _ _ h)))
  have hk : ∀ k : String, k ≠ key →
      BybitPrivateClient.signedData timestamp k recvWindow payload ≠
        BybitPrivateClient.signedData timestamp key recvWindow payload := by
    intro k hk h
    apply hk
    simp only [BybitPrivateClient.signedData] at h
    exact append_left_cancel _ _ _ (append_right_cancel _ _ _ (append_right_cancel _ _ _ h))
  have hw : ∀ w : Int, w ≠ recvWindow →
      BybitPrivateClient.signedData timestamp key w payload ≠
        BybitPrivateClient.signedData timestamp key recvWindow payload := by
    intro w hw h
    apply hw
    simp only [BybitPrivateClient.signedData] at h
    exact toString_int_injective _ _ (append_left_cancel _ _ _ (append_right_cancel _ _ _ h))
  have hp : ∀ p : String, p ≠ payload →
      BybitPrivateClient.signedData timestamp key recvWindow p ≠
        BybitPrivateClient.signedData timestamp key recvWindow payload := by
    intro p hp h
    apply hp
    simp only [BybitPrivateClient.signedData] at h
    exact append_left_cancel _ _ _ h
  refine ⟨rfl, ?_, ?_, ?_, fun t h => ⟨ht t h, fun hm => hsig _ hm (ht t h)⟩,
    fun k h => ⟨hk k h, fun hm => hsig _ hm (hk k h)⟩,
    fun w h => ⟨hw w h, fun hm => hsig _ hm (hw w h)⟩,
    fun p h => ⟨hp p h, fun hm => hsig _ hm (hp p h)⟩⟩
  · intro iter
    exact (List.sorted_insertionSort stringLe _).sublist
      (entries_keys_sublist parameters (sort.Strings ((iter parameters).map Prod.fst)))
  · intro iter hperm k v
    have hmem : k ∈ sort.Strings ((iter parameters).map Prod.fst) ↔ k ∈ parameters.keys := by
      rw [sort.Strings, (List.perm_insertionSort stringLe _).mem_iff,
        (hperm.map Prod.fst).mem_iff]
      rfl
    simp only [PreparePayload.entries, List.mem_filterMap]
    constructor
    · rintro ⟨k1, hk1, hf⟩
      cases hv : (parameters.get k1).getD Value.nil with
      | nil => simp [hv] at hf
      | str s =>
        simp only [hv, Option.some.injEq, Prod.mk.injEq] at hf
        obtain ⟨rfl, rfl⟩ := hf
        exact ⟨hmem.1 hk1, hv, by simp⟩
      | int n =>
        simp only [hv, Option.some.injEq, Prod.mk.injEq] at hf
        obtain ⟨rfl, rfl⟩ := hf
        exact ⟨hmem.1 hk1, hv, by simp⟩
      | float x =>
        simp only [hv, Option.some.injEq, Prod.mk.injEq] at hf
        obtain ⟨rfl, rfl⟩ := hf
        exact ⟨hmem.1 hk1, hv, by simp⟩
    · rintro ⟨hk, hv, hne⟩
      refine ⟨k, hmem.2 hk, ?_⟩
      rw [hv]
      cases v with
      | nil => exact absurd rfl hne
      | str s => rfl
      | int n => rfl
      | float x => rfl
  · intro iter1 iter2 h1 h2
    have hk : sort.Strings ((iter1 parameters).map Prod.fst) =
        sort.Strings ((iter2 parameters).map Prod.fst) :=
      sort_Strings_perm _ _ ((h1.trans h2.symm).map Prod.fst)
    simp only [PreparePayload.GET, PreparePayload.entries, hk]

/-- The stand-in `showHmac` has no collision. -/
theorem showHmac_injOn (secret : String) : Set.InjOn (showHmac secret) Set.univ := by
  intro d1 _ d2 _ h
  simp only [showHmac] at h
  exact append_left_cancel _ _ _ (append_right_cancel _ _ _ h)

set_option maxRecDepth 100000 in
theorem bybit_signature_inputs_witness :
    PreparePayload.GET (Sprintv fun _ => "") id
        [("orderId", Value.str "42"), ("category", Value.str "spot")] =
      PreparePayload.GET (Sprintv fun _ => "") List.reverse
        [("orderId", Value.str "42"), ("category", Value.str "spot")] ∧
    PreparePayload.GET (Sprintv fun _ => "") List.reverse
        [("orderId", Value.str "42"), ("category", Value.str "spot")] =
      "category=spot&orderId=42" ∧
    BybitPrivateClient.generateSignature showHmac "sec" "KEY" 5000
        "category=spot&orderId=42" 1700000000000 =
      "HMAC[sec|1700000000000KEY5000category=spot&orderId=42]" ∧
    BybitPrivateClient.signedData 1700000000001 "KEY" 5000 "category=spot&orderId=42" ≠
      BybitPrivateClient.signedData 1700000000000 "KEY" 5000 "category=spot&orderId=42" ∧
    BybitPrivateClient.generateSignature showHmac "sec" "KEY" 5000
        "category=spot&orderId=42" 1700000000001 ≠
      BybitPrivateClient.generateSignature showHmac "sec" "KEY" 5000
        "category=spot&orderId=42" 1700000000000 ∧
    BybitPrivateClient.generateSignature showHmac "sec" "KEY" 5000
        "category=spot&orderId=43" 1700000000000 ≠
      BybitPrivateClient.generateSignature showHmac "sec" "KEY" 5000
        "category=spot&orderId=42" 1700000000000 :=
  ⟨(bybit_signature_inputs showHmac (Sprintv fun _ => "") "sec" "KEY"
      "category=spot&orderId=42" 5000 1700000000000
      [("orderId", Value.str "42"), ("category", Value.str "spot")] Set.univ
      (showHmac_injOn "sec") (Set.mem_univ _)).2.2.2.1 id List.reverse
      (List.Perm.refl _) (List.reverse_perm _),
   by decide,
   by decide,
   ((bybit_signature_inputs showHmac (Sprintv fun _ => "") "sec" "KEY"
      "category=spot&orderId=42" 5000 1700000000000
      [("orderId", Value.str "42"), ("category", Value.str "spot")] Set.univ
      (showHmac_injOn "sec") (Set.mem_univ _)).2.2.2.2.1
      1700000000001 (by decide)).1,
   ((bybit_signature_inputs showHmac (Sprintv fun _ => "") "sec" "KEY"
      "category=spot&orderId=42" 5000 1700000000000
      [("orderId", Value.str "42"), ("category", Value.str "spot")] Set.univ
      (showHmac_injOn "sec") (Set.mem_univ _)).2.2.2.2.1
      1700000000001 (by decide)).2 (Set.mem_univ _),
   ((bybit_signature_inputs showHmac (Sprintv fun _ => "") "sec" "KEY"
      "category=spot&orderId=42" 5000 1700000000000
      [("orderId", Value.str "42"), ("category", Value.str "spot")] Set.univ
      (showHmac_injOn "sec") (Set.mem_univ _)).2.2.2.2.2.2.2
      "category=spot&orderId=43" (by decide)).2 (Set.mem_univ _)⟩

/-- C25, as stated, fails: after a successful `Run` the read limit is below
640 · 1024 bytes. -/
theorem read_limit_counterexample :
    ¬ ((WebSocketApp.Run { ReadLimit := 0, IsRunning := false } none).1.ReadLimit
        ≥ 640 * 1024) := by
  decide

/-- C25, amended: the read limit that `WebSocketApp.Run` sets on the
connection is 655350 bytes, which is 10 · 65535 and is 10 bytes less than
640 KiB = 655360 bytes. -/
theorem read_limit_value (ws : WebSocketApp) :
    (WebSocketApp.Run ws none).1.ReadLimit = 655350 ∧
    (WebSocketApp.Run ws none).2 = none ∧
    (655350 : Int) = 10 * 65535 ∧ (655350 : Int) = 640 * 1024 - 10 := by
  refine ⟨rfl, rfl, by norm_num, by norm_num⟩

/-- A character that occurs has an index inside the string. -/
theorem Index_go_mem (c : Char) (l : List Char) (i : Nat) (h : c ∈ l) :
    (i : Int) ≤ strings.Index.go c l i := by
  rcases Index_go_range c l i with h1 | h1
  · exfalso
    induction l generalizing i with
    | nil => simp at h
    | cons x xs ih =>
      by_cases hx : x = c
      · simp only [strings.Index.go, hx, if_true] at h1
        omega
      · simp only [strings.Index.go, hx, if_false] at h1
        have hxs : c ∈ xs := by
          rcases List.mem_cons.1 h with h2 | h2
          · exact absurd h2.symm hx
          · exact h2
        exact ih (i + x.utf8Size) hxs h1
  · exact h1.1

/-- The index of a character is -1 exactly when it does not occur. -/
theorem Index_eq_neg_one (s : String) (c : Char) : strings.Index s c = -1 ↔ c ∉ s.data := by
  constructor
  · intro h hm
    have := Index_go_mem c s.data 0 hm
    simp only [strings.Index] at h
    omega
  · intro h
    exact Index_go_not_mem c s.data 0 h

/-- The index of a character is 0 exactly when the string begins with it. -/
theorem Index_eq_zero (s : String) (c : Char) :
    strings.Index s c = 0 ↔ s.data.head? = some c := by
  cases hs : s.data with
  | nil => simp [strings.Index, hs, strings.Index.go]
  | cons x xs =>
    by_cases hx : x = c
    · simp [strings.Index, hs, strings.Index.go, hx]
    · have hpos : 0 < x.utf8Size := Char.utf8Size_pos x
      have hr := Index_go_range c xs (0 + x.utf8Size)
      simp only [strings.Index, hs, strings.Index.go, hx, if_false, List.head?_cons,
        Option.some.injEq, iff_false]
      intro h0
      rcases hr with h1 | ⟨h1, _⟩
      · omega
      · have : (0 : Int) < ((0 + x.utf8Size : Nat) : Int) := by exact_mod_cast (by omega)
        omega

/-- C26: `GetPrecision s` returns a value exactly when `s` has no '.', or
begins with '1', or has its first '1' after its first '.'; it fails (the
slice is out of range) exactly when `s` has a '.' and either no '1' at all or
a first '1' at an index ≥ 1 before the '.', as for "0.5", "0.005" and "21.5";
and every value it returns is ≥ 0. -/
theorem GetPrecision_domain (s : String) :
    ((GetPrecision s).isSome ↔
      ('.' ∉ s.data ∨ s.data.head? = some '1' ∨
        ('.' ∈ s.data ∧ strings.Index s '.' < strings.Index s '1'))) ∧
    (GetPrecision s = none ↔
      ('.' ∈ s.data ∧ ('1' ∉ s.data ∨
        (1 ≤ strings.Index s '1' ∧ strings.Index s '1' < strings.Index s '.')))) ∧
    (∀ v : Int, GetPrecision s = some v → 0 ≤ v) ∧
    GetPrecision "0.5" = none ∧ GetPrecision "0.005" = none ∧ GetPrecision "21.5" = none := by
  have hdot := Index_eq_neg_one s '.'
  have hone := Index_eq_neg_one s '1'
  have hzero := Index_eq_zero s '1'
  have hrd := Index_go_range '.' s.data 0
  have hro := Index_go_range '1' s.data 0
  have hd : strings.Index.go '.' s.data 0 = strings.Index s '.' := rfl
  have ho : strings.Index.go '1' s.data 0 = strings.Index s '1' := rfl
  rw [hd] at hrd
  rw [ho] at hro
  have hneq : strings.Index s '.' = strings.Index s '1' → strings.Index s '.' = -1 := by
    intro heq
    by_contra hne
    have hmd : '.' ∈ s.data := by
      by_contra hn
      exact hne (hdot.2 hn)
    have key : ∀ (l : List Char) (i : Nat), '.' ∈ l →
        strings.Index.go '.' l i ≠ strings.Index.go '1' l i := by
      intro l
      induction l with
      | nil => intro i hm; simp at hm
      | cons x xs ih =>
        intro i hm
        have hpos : 0 < x.utf8Size := Char.utf8Size_pos x
        by_cases hx : x = '.'
        · have hx1 : ¬ (x = '1') := by rw [hx]; decide
          simp only [strings.Index.go, hx, if_true]
          rw [← hx, if_neg hx1]
          rcases Index_go_range '1' xs (i + x.utf8Size) with h1 | ⟨h1, _⟩
          · rw [h1]; omega
          · have : ((i : Nat) : Int) < ((i + x.utf8Size : Nat) : Int) := by
              exact_mod_cast (by omega)
            omega
        · have hxs : '.' ∈ xs := by
            rcases List.mem_cons.1 hm with h2 | h2
            · exact absurd h2.symm hx
            · exact h2
          by_cases hx1 : x = '1'
          · simp only [strings.Index.go, hx, if_false, hx1, if_true]
            have := Index_go_mem '.' xs (i + x.utf8Size) hxs
            rw [hx1] at this hpos
            have h2 : ((i : Nat) : Int) < ((i + ('1' : Char).utf8Size : Nat) : Int) := by
              exact_mod_cast (by omega)
            have hd1 : ¬ ('1' = '.') := by decide
            rw [if_neg hd1]
            omega
          · simp only [strings.Index.go, hx, if_false, hx1]
            exact ih (i + x.utf8Size) hxs
    exact key s.data 0 hmd heq
  have hlen : strings.Index s '1' ≤ (byteLen s.data : Int) := by
    rcases hro with h | ⟨_, h⟩
    · omega
    · have : ((0 + byteLen s.data : Nat) : Int) = (byteLen s.data : Int) := by simp
      omega
  have hd0 : strings.Index s '.' = -1 ∨ 0 ≤ strings.Index s '.' := by
    rcases hrd with h | ⟨h, _⟩
    · left; exact h
    · right; simpa using h
  have ho0 : strings.Index s '1' = -1 ∨ 0 ≤ strings.Index s '1' := by
    rcases hro with h | ⟨h, _⟩
    · left; exact h
    · right; simpa using h
  have hmemd : '.' ∈ s.data ↔ ¬ (strings.Index s '.' = -1) := by
    rw [hdot]; simp
  have hmemo : '1' ∉ s.data ↔ strings.Index s '1' = -1 := hone.symm
  refine ⟨?_, ?_, ?_, by decide, by decide, by decide⟩
  · rw [← hdot, ← hzero, hmemd]
    simp only [GetPrecision]
    split_ifs with h1 h2 h3
    · simp [h1]
    · simp [h2]
    · simp only [Option.isSome_some, true_iff]
      right; right
      refine ⟨h1, ?_⟩
      rcases lt_or_eq_of_le h3.2.1 with h | h
      · exact h
      · exact absurd (hneq h) h1
    · simp only [Option.isSome_none, Bool.false_eq_true, false_iff]
      rintro (h | h | ⟨_, h⟩)
      · exact h1 h
      · exact h2 h
      · apply h3
        refine ⟨?_, le_of_lt h, hlen⟩
        rcases hd0 with h4 | h4
        · exact absurd h4 h1
        · exact h4
  · rw [hmemd, hmemo]
    simp only [GetPrecision]
    split_ifs with h1 h2 h3
    · simp [h1]
    · simp only [reduceCtorEq, false_iff]
      rintro ⟨_, h | h⟩
      · omega
      · omega
    · simp only [reduceCtorEq, false_iff]
      rintro ⟨_, h | h⟩
      · omega
      · omega
    · simp only [true_iff]
      refine ⟨h1, ?_⟩
      by_cases ho1 : strings.Index s '1' = -1
      · left; exact ho1
      · right
        have hdnn : 0 ≤ strings.Index s '.' := by
          rcases hd0 with h4 | h4
          · exact absurd h4 h1
          · exact h4
        have hnle : ¬ (strings.Index s '.' ≤ strings.Index s '1') := by
          intro hle; exact h3 ⟨hdnn, hle, hlen⟩
        constructor
        · rcases ho0 with h4 | h4
          · exact absurd h4 ho1
          · omega
        · omega
  · intro v hv
    simp only [GetPrecision] at hv
    split_ifs at hv with h1 h2 h3
    · simp only [Option.some.injEq] at hv; omega
    · simp only [Option.some.injEq] at hv; omega
    · simp only [Option.some.injEq] at hv; omega

/-- C27: when a tick finds a profitable detection whose percent differs from
`possibility` while the executor counter is at least 3, it makes no call but
still sets `possibility` to that percent; a following tick that finds the
same detection under the same threshold then makes no call either, whatever
the counter is, and leaves `possibility` as it is. A later tick whose BBS
detection is profitable with another percent, with the counter below 3, does
make the call. -/
theorem capped_not_retried {σ : Type} (P : PrivateClient σ) (fmt : ℚ → Int → String)
    (F : FloatOps)
    (d1 d2 : Detector σ) (s1 s2 : Schedule) (possibility : ℚ) (det : Detection)
    (h1 : d1.detect F s1 = some det) (h2 : d2.detect F s2 = some det)
    (hth : d2.Robot.Threashold = d1.Robot.Threashold)
    (hprof : det.bbs > F.add 1 d1.Robot.Threashold ∨ det.ssb > F.add 1 d1.Robot.Threashold)
    (hnew : possibility ≠ F.mul (F.sub det.bbs 1) 100)
    (hcap : 3 ≤ d1.Robot.Exec.Counter) :
    d1.tick P fmt F s1 possibility =
      some { possibility := F.mul (F.sub det.bbs 1) 100, Exec := d1.Robot.Exec, call := none,
             trace := [] } ∧
    d2.tick P fmt F s2 (F.mul (F.sub det.bbs 1) 100) =
      some { possibility := F.mul (F.sub det.bbs 1) 100, Exec := d2.Robot.Exec, call := none,
             trace := [] } ∧
    (∀ (d3 : Detector σ) (s3 : Schedule) (det3 : Detection),
      d3.detect F s3 = some det3 → det3.bbs > F.add 1 d3.Robot.Threashold →
      F.mul (F.sub det.bbs 1) 100 ≠ F.mul (F.sub det3.bbs 1) 100 → d3.Robot.Exec.Counter < 3 →
      (d3.tick P fmt F s3 (F.mul (F.sub det.bbs 1) 100)).map TickResult.call =
        some (some (d3.Triangle, "BBS", d3.Robot.Lot))) := by
  have hge : d1.Robot.Exec.Counter ≥ 3 := hcap
  refine ⟨?_, ?_, ?_⟩
  · rcases hprof with hp | hp
    · simp [Detector.tick, h1, hp, hnew, hge]
    · by_cases hb : det.bbs > F.add 1 d1.Robot.Threashold
      · simp [Detector.tick, h1, hb, hnew, hge]
      · simp [Detector.tick, h1, hb, hp, hnew, hge]
  · rw [← hth] at hprof
    rcases hprof with hp | hp
    · simp [Detector.tick, h2, hp]
    · by_cases hb : det.bbs > F.add 1 d2.Robot.Threashold
      · simp [Detector.tick, h2, hb]
      · simp [Detector.tick, h2, hb, hp]
  · intro d3 s3 det3 h3 hp hne hlt
    have hnge : ¬ (d3.Robot.Exec.Counter ≥ 3) := by omega
    simp [Detector.tick, h3, hp, hnge, hne]

theorem capped_not_retried_witness :
    (detectorOf happyStore 3).tick scripted showQ exactOps Schedule.ssbThenBbs 0 =
      some { possibility := (100203 / 100000 - 1) * 100,
             Exec := (detectorOf happyStore 3).Robot.Exec, call := none, trace := [] } ∧
    (detectorOf happyStore 0).tick scripted showQ exactOps Schedule.ssbThenBbs
        ((100203 / 100000 - 1) * 100) =
      some { possibility := (100203 / 100000 - 1) * 100,
             Exec := (detectorOf happyStore 0).Robot.Exec, call := none, trace := [] } := by
  have hdet : ∀ k : Int, (detectorOf happyStore k).detect exactOps Schedule.ssbThenBbs =
      some { bbs := 100203 / 100000, ssb := 0 } := by
    intro k
    simp [Detector.detect, Detector.bbs, Detector.ssb, Detector.get_price, Robot.GetPrice,
      detectorOf, robotOf, happyStore, store, book, tri, index, MarketSymbol.GetBaseSymbol,
      arbitrage_formula, exactOps]
    norm_num
  have h := capped_not_retried scripted showQ exactOps (detectorOf happyStore 3)
    (detectorOf happyStore 0) Schedule.ssbThenBbs Schedule.ssbThenBbs 0
    { bbs := 100203 / 100000, ssb := 0 } (hdet 3) (hdet 0) rfl
    (Or.inl (by simp [detectorOf, robotOf, exactOps]; norm_num))
    (by simp [exactOps]; norm_num)
    (by simp [detectorOf, robotOf])
  exact ⟨h.1, h.2.1⟩

/-- C21 fails on the code for update requests: a start with delta 0.1 sets
the threshold to 0.1/100 = 0.001, but an update with the same delta 0.1 and
lot 2 stores the delta undivided and raises the threshold to 0.1. -/
theorem update_threshold_not_divided :
    (startedServer (1 / 10) 1 (1 / 10)).settings = some (1 / 1000, 1, 1 / 10) ∧
    ((startedServer (1 / 10) 1 (1 / 10)).handleUpdateRobot
        (Except.ok { Delta := 1 / 10, Market := "BINANCE", API_KEY := "key", Secret := "sec",
                     Fee := 1 / 10, Lot := 2 })).map
      (fun r => (r.2, r.1.settings)) =
      some ([Response.status 201 "ok"], some (1 / 10, 2, 1 / 10)) := by
  constructor
  · simp [startedServer, server.handleStartRobot, server0, CreateRobot, server.settings]
    norm_num
  · simp [startedServer, server.handleStartRobot, server0, CreateRobot, server.settings,
      server.handleUpdateRobot]

/-- C22 fails on the code: the update handler does not return after
`raiseError`. A request whose market differs from the running engine's is
answered with the error and then with the success response, and its delta,
lot and fee are stored; so is a request identical to the current state; and on
a server that never started an engine the handler writes "robot is not
running" and then panics on the nil `s.bot`. -/
theorem update_rejections_fall_through :
    ((startedServer (1 / 10) 1 (1 / 10)).handleUpdateRobot
        (Except.ok { Delta := 5, Market := "BYBIT", API_KEY := "key", Secret := "sec",
                     Fee := 9, Lot := 7 })).map
      (fun r => (r.2, r.1.settings)) =
      some ([Response.error 400 "you can update either delta, lot or fee",
             Response.status 201 "ok"], some (5, 7, 9)) ∧
    ((startedServer (1 / 10) 1 (1 / 10)).handleUpdateRobot
        (Except.ok { Delta := 1 / 1000, Market := "BINANCE", API_KEY := "key",
                     Secret := "sec", Fee := 1 / 10, Lot := 1 })).map
      (fun r => (r.2, r.1.settings)) =
      some ([Response.error 400 "no new parameters in request",
             Response.status 201 "ok"], some (1 / 1000, 1, 1 / 10)) ∧
    (server0.handleUpdateRobot
        (Except.ok { Delta := 5, Market := "BINANCE", API_KEY := "key", Secret := "sec",
                     Fee := 9, Lot := 7 })).map
      (fun r => (r.2, r.1.settings)) = none := by
  refine ⟨?_, ?_, ?_⟩
  · simp [startedServer, server.handleStartRobot, server0, CreateRobot, server.settings,
      server.handleUpdateRobot]
  · simp [startedServer, server.handleStartRobot, server0, CreateRobot, server.settings,
      server.handleUpdateRobot]
    norm_num
  · simp [server0, server.handleUpdateRobot]

/-- C23 fails on the code: `readTriangles` returns an error only when the file
cannot be read or decoded. With the symbols ETH+BTC and XRP+ETH, the triangle
(ETH+BTC, XRP+ETH, XRP+BTC) is registered with a nil final symbol and no error
is returned. -/
theorem missing_symbol_registered :
    readTriangles [("ETH+BTC", symbolOf "ETH" "BTC"), ("XRP+ETH", symbolOf "XRP" "ETH")] []
        (Except.ok [("ETH+BTC", "XRP+ETH", "XRP+BTC")]) =
      ([{ Initial := some (symbolOf "ETH" "BTC"), Middle := some (symbolOf "XRP" "ETH"),
          Final := none }], none) ∧
    (∀ (Symbols : GoMap MarketSymbol) (Triangles : List LoadedTriangle)
        (trianlges : List (String × String × String)),
      (readTriangles Symbols Triangles (Except.ok trianlges)).2 = none) := by
  constructor
  · decide
  · intro Symbols Triangles trianlges
    rfl

/-- Whenever the Bybit loop returns, it returns an error exactly when a
requested symbol is absent from the array `res`, and without error every
symbol carries the precisions of its tick size and base precision strings. -/
theorem Bybit_setPrecisions_returns (res : List Bybit.SymbolData) (symbols : List MarketSymbol)
    (out : List MarketSymbol) (err : Option Error)
    (h : Bybit.setPrecisions res symbols = some (out, err)) :
    (err ≠ none ↔ ∃ s ∈ symbols, Bybit.findSymbol res s.GetSymbol = none) ∧
    (err = none → List.Forall₂ (fun s o => ∃ data,
        Bybit.findSymbol res s.GetSymbol = some data ∧
        GetPrecision data.PriceFilter.TickSize = some o.PricePrecision ∧
        GetPrecision data.LotSizeFilter.BasePrecision = some o.BasePrecision ∧
        o.Symbol = s.Symbol ∧ o.BaseSymbol = s.BaseSymbol) symbols out) := by
  induction symbols generalizing out err with
  | nil =>
    simp only [Bybit.setPrecisions, Option.some.injEq, Prod.mk.injEq] at h
    obtain ⟨rfl, rfl⟩ := h
    simp
  | cons s rest ih =>
    cases hf : Bybit.findSymbol res s.GetSymbol with
    | none =>
      simp only [Bybit.setPrecisions, hf, Option.some.injEq, Prod.mk.injEq] at h
      obtain ⟨rfl, rfl⟩ := h
      constructor
      · constructor
        · intro _; exact ⟨s, List.mem_cons_self _ _, hf⟩
        · intro _; simp
      · intro hnone; simp at hnone
    | some data =>
      simp only [Bybit.setPrecisions, hf, Option.bind_eq_some, Option.map_eq_some'] at h
      obtain ⟨bp, hbp, pp, hpp, r, hr, hout⟩ := h
      obtain ⟨r1, r2⟩ := r
      simp only [Prod.mk.injEq] at hout
      obtain ⟨rfl, rfl⟩ := hout
      obtain ⟨ih1, ih2⟩ := ih r1 r2 hr
      constructor
      · rw [ih1]
        constructor
        · rintro ⟨t, ht, hft⟩
          exact ⟨t, List.mem_cons_of_mem _ ht, hft⟩
        · rintro ⟨t, ht, hft⟩
          rcases List.mem_cons.1 ht with rfl | ht
          · rw [hf] at hft; simp at hft
          · exact ⟨t, ht, hft⟩
      · intro hnone
        exact List.Forall₂.cons ⟨data, hf, hpp, hbp, rfl, rfl⟩ (ih2 hnone)

/-- Whenever the Binance loop returns, it returns an error exactly when a
requested symbol is absent from the list. -/
theorem Binance_setPrecisions_returns (res : List Binance.SymbolData)
    (symbols : List MarketSymbol) (out : List MarketSymbol) (err : Option Error)
    (h : Binance.setPrecisions res symbols = some (out, err)) :
    (err ≠ none ↔ ∃ s ∈ symbols, Binance.findSymbol res s.GetSymbol = none) := by
  induction symbols generalizing out err with
  | nil =>
    simp only [Binance.setPrecisions, Option.some.injEq, Prod.mk.injEq] at h
    obtain ⟨rfl, rfl⟩ := h
    simp
  | cons s rest ih =>
    cases hf : Binance.findSymbol res s.GetSymbol with
    | none =>
      simp only [Binance.setPrecisions, hf, Option.some.injEq, Prod.mk.injEq] at h
      obtain ⟨rfl, rfl⟩ := h
      constructor
      · intro _; exact ⟨s, List.mem_cons_self _ _, hf⟩
      · intro _; simp
    | some data =>
      simp only [Binance.setPrecisions, hf, Option.bind_eq_some, Option.map_eq_some'] at h
      obtain ⟨s1, _, r, hr, hout⟩ := h
      obtain ⟨r1, r2⟩ := r
      simp only [Prod.mk.injEq] at hout
      obtain ⟨rfl, rfl⟩ := hout
      rw [ih r1 r2 hr]
      constructor
      · rintro ⟨t, ht, hft⟩
        exact ⟨t, List.mem_cons_of_mem _ ht, hft⟩
      · rintro ⟨t, ht, hft⟩
        rcases List.mem_cons.1 ht with rfl | ht
        · rw [hf] at hft; simp at hft
        · exact ⟨t, ht, hft⟩

set_option maxRecDepth 100000 in
/-- C24 fails on the code: with a response of code 0 that lists ETHBTC with
tick size "0.5" and does not list XRPBTC, and the requested symbols ETH+BTC
and XRP+BTC, `GetInstrumentsInfo` does not return an error for the absent
XRPBTC: `GetPrecision("0.5")` panics while ETHBTC is processed, for the Bybit
client and for the Binance client. With tick size "0.01" the error is
returned. -/
theorem instruments_info_panics :
    BybitPublicClient.GetInstrumentsInfo
        (Except.ok { Message := "OK", Code := 0,
                     List := [{ Symbol := "ETHBTC", Margin := "both",
                                PriceFilter := { BasePrecision := "", TickSize := "0.5" },
                                LotSizeFilter :=
                                  { BasePrecision := "0.001", TickSize := "" } }] })
        [symbolOf "ETH" "BTC", symbolOf "XRP" "BTC"] = none ∧
    BinancePublicClient.GetInstrumentsInfo
        (Except.ok { Code := 0, Message := "",
                     List := [{ Symbol := "ETHBTC",
                                Filters :=
                                  [{ filterType := "PRICE_FILTER", TickSize := "0.5",
                                     StepSize := "" },
                                   { filterType := "LOT_SIZE", TickSize := "",
                                     StepSize := "0.001" }] }] })
        [symbolOf "ETH" "BTC", symbolOf "XRP" "BTC"] = none ∧
    BybitPublicClient.GetInstrumentsInfo
        (Except.ok { Message := "OK", Code := 0,
                     List := [{ Symbol := "ETHBTC", Margin := "both",
                                PriceFilter := { BasePrecision := "", TickSize := "0.01" },
                                LotSizeFilter :=
                                  { BasePrecision := "0.001", TickSize := "" } }] })
        [symbolOf "ETH" "BTC", symbolOf "XRP" "BTC"] =
      some ([{ symbolOf "ETH" "BTC" with BasePrecision := 3, PricePrecision := 2 },
             symbolOf "XRP" "BTC"],
            some "can't find precision information for symbol XRP+BTC") := by
  refine ⟨?_, ?_, ?_⟩ <;> decide

end GOTA
